import Mathlib

/-!
Shallow embedding of the data-warehouse visualisation client (the Vue-based
`static/js/app.js` variant, plus `populateAllNodes` from the plain-JS variant):
graph data model, connectivity index, layout engine, position cache, render
pipeline and search/highlight, together with proofs of the spec's testable
properties about them.

Modelling conventions: JS objects used as string-keyed dictionaries become
association lists with assignment semantics (`setMap`); JS `Set`s become
first-occurrence-deduplicated lists; machine numbers in positions are exact
integers (all position arithmetic in the source is integral); styling-only
fields (colors, fonts, shadows, edge smoothing) are not modelled.
-/

namespace DWViz

/-- A 2-D position, as produced by `network.getPositions()` and stored in the
layout cache. -/
structure Pos where
  x : Int
  y : Int
  deriving DecidableEq, Repr

/-- Graph node as delivered per snapshot (`GraphNode` in the source's JSDoc).
`fixed` models the vis.js pin flag: `none` = unpinned, `some (px, py)` =
pinned per axis (`fixed: true` in JS is `some (true, true)`). -/
structure Node where
  id : String
  label : String
  group : String
  level : Nat
  x : Option Int := none
  y : Option Int := none
  fixed : Option (Bool × Bool) := none
  deriving DecidableEq, Repr

/-- Graph edge (`Edge` in the source's JSDoc); styling fields omitted. -/
structure Edge where
  id : String
  «from» : String
  «to» : String
  deriving DecidableEq, Repr

/-- A snapshot's dataset (`GraphStateData` in the source's JSDoc). -/
structure GraphStateData where
  nodes : List Node
  edges : List Edge
  deriving DecidableEq, Repr

/-- JS-object property read `m[k]` on a dictionary-shaped object, modelled as
first-binding lookup in an association list. -/
def lookupMap {κ α : Type} [DecidableEq κ] (m : List (κ × α)) (k : κ) : Option α :=
  match m with
  | [] => none
  | (k', v) :: rest => if k = k' then some v else lookupMap rest k

/-- JS-object property write `m[k] = v`: overwrite the existing binding in
place, or append a fresh one. -/
def setMap {κ α : Type} [DecidableEq κ] (m : List (κ × α)) (k : κ) (v : α) :
    List (κ × α) :=
  match m with
  | [] => [(k, v)]
  | (k', v') :: rest => if k = k' then (k, v) :: rest else (k', v') :: setMap rest k v

theorem lookupMap_setMap_self {κ α : Type} [DecidableEq κ]
    (m : List (κ × α)) (k : κ) (v : α) :
    lookupMap (setMap m k v) k = some v := by
  induction m with
  | nil => simp [setMap, lookupMap]
  | cons hd tl ih =>
    obtain ⟨k', v'⟩ := hd
    by_cases h : k = k'
    · simp [setMap, lookupMap, h]
    · simp [setMap, lookupMap, h, ih]

theorem lookupMap_setMap_ne {κ α : Type} [DecidableEq κ]
    (m : List (κ × α)) (k k' : κ) (v : α) (h : k' ≠ k) :
    lookupMap (setMap m k v) k' = lookupMap m k' := by
  induction m with
  | nil => simp [setMap, lookupMap, h]
  | cons hd tl ih =>
    obtain ⟨k₀, v₀⟩ := hd
    by_cases hk : k = k₀
    · subst hk
      simp [setMap, lookupMap, h]
    · by_cases hk' : k' = k₀ <;> simp [setMap, lookupMap, hk, hk', ih]

/-- First-occurrence deduplication keyed by `key`, with an accumulator of
already-seen keys: the behaviour of inserting into a JS `Map`/`Set` and
reading the values back in insertion order. -/
def dedupByAcc {α : Type} (key : α → String) (seen : List String) :
    List α → List α
  | [] => []
  | a :: rest =>
    if key a ∈ seen then dedupByAcc key seen rest
    else a :: dedupByAcc key (key a :: seen) rest

/-- First-occurrence deduplication keyed by `key` (JS `Map` insertion order). -/
def dedupBy {α : Type} (key : α → String) (l : List α) : List α :=
  dedupByAcc key [] l

theorem mem_dedupByAcc {α : Type} (key : α → String) :
    ∀ (l : List α) (seen : List String) (a : α),
      a ∈ l → key a ∉ seen → ∃ b ∈ dedupByAcc key seen l, key b = key a
  | [], _, _, ha, _ => absurd ha (List.not_mem_nil _)
  | c :: rest, seen, a, ha, hs => by
    by_cases hc : key c ∈ seen
    · rcases List.mem_cons.mp ha with h | h
      · subst h; exact absurd hc hs
      · obtain ⟨b, hb, hkey⟩ := mem_dedupByAcc key rest seen a h hs
        exact ⟨b, by simpa [dedupByAcc, hc] using hb, hkey⟩
    · by_cases hca : key a = key c
      · exact ⟨c, by simp [dedupByAcc, hc], hca.symm⟩
      · rcases List.mem_cons.mp ha with h | h
        · exact absurd (congrArg key h) hca
        · have hs' : key a ∉ key c :: seen := by
            intro hmem
            rcases List.mem_cons.mp hmem with h' | h'
            · exact hca h'
            · exact hs h'
          obtain ⟨b, hb, hkey⟩ := mem_dedupByAcc key rest (key c :: seen) a h hs'
          exact ⟨b, by simp [dedupByAcc, hc, List.mem_cons]; right; exact hb, hkey⟩

theorem mem_dedupBy {α : Type} (key : α → String) (l : List α) (a : α)
    (ha : a ∈ l) : ∃ b ∈ dedupBy key l, key b = key a :=
  mem_dedupByAcc key l [] a ha (List.not_mem_nil _)

/-! ## Connectivity index (`calculateConnectivity`) -/

/-- The ids of a node list (keys of `connectionMap` / `nodeIdMap`). -/
def nodeIds (nodes : List Node) : List String := nodes.map Node.id

/-- One deduplicated adjacency push: the source's
`if (!map[k].includes(x)) map[k].push(x)`. -/
def pushUnique (m : List (String × List String)) (k x : String) :
    List (String × List String) :=
  match lookupMap m k with
  | some l => if x ∈ l then m else setMap m k (l ++ [x])
  | none => m

/-- One iteration of `calculateConnectivity`'s edge loop: if both endpoints
have entries in the connection map, push each endpoint onto the other's
neighbor list unless already present. -/
def addEdgeStep (m : List (String × List String)) (e : Edge) :
    List (String × List String) :=
  match lookupMap m e.«from», lookupMap m e.«to» with
  | some _, some _ => pushUnique (pushUnique m e.«from» e.«to») e.«to» e.«from»
  | _, _ => m

/-- `calculateConnectivity`: reset both maps, give every node an empty
neighbor list and a `nodeIdMap` entry, then fold the edge loop. Returns
`(connectionMap, nodeIdMap)`. -/
def calculateConnectivity (nodes : List Node) (edges : List Edge) :
    List (String × List String) × List (String × Node) :=
  let maps := nodes.foldl
    (fun p n => (setMap p.1 n.id ([] : List String), setMap p.2 n.id n))
    ([], [])
  (edges.foldl addEdgeStep maps.1, maps.2)

/-- An edge is usable by the connectivity index when both endpoints are known
node ids. -/
def edgeOk (nodes : List Node) (e : Edge) : Prop :=
  e.«from» ∈ nodeIds nodes ∧ e.«to» ∈ nodeIds nodes

/-- `x` is the other endpoint of edge `e`, viewed undirected from `n`. -/
def edgeLinks (e : Edge) (n x : String) : Prop :=
  (e.«from» = n ∧ e.«to» = x) ∨ (e.«to» = n ∧ e.«from» = x)

instance (nodes : List Node) (e : Edge) : Decidable (edgeOk nodes e) := by
  unfold edgeOk; infer_instance

instance (e : Edge) (n x : String) : Decidable (edgeLinks e n x) := by
  unfold edgeLinks; infer_instance

theorem lookupMap_pushUnique_self (m : List (String × List String)) (k x : String)
    (l : List String) (h : lookupMap m k = some l) :
    lookupMap (pushUnique m k x) k = some (if x ∈ l then l else l ++ [x]) := by
  unfold pushUnique
  rw [h]
  by_cases hx : x ∈ l
  · simp [hx, h]
  · simp [hx, lookupMap_setMap_self]

theorem lookupMap_pushUnique_ne (m : List (String × List String)) (k k' x : String)
    (h : k' ≠ k) :
    lookupMap (pushUnique m k x) k' = lookupMap m k' := by
  unfold pushUnique
  cases hl : lookupMap m k with
  | none => rfl
  | some l =>
    by_cases hx : x ∈ l
    · simp [hx]
    · simp [hx, lookupMap_setMap_ne _ _ _ _ h]

theorem pushUnique_of_mem (m : List (String × List String)) (k x : String)
    (l : List String) (h : lookupMap m k = some l) (hx : x ∈ l) :
    pushUnique m k x = m := by
  unfold pushUnique
  rw [h]
  simp [hx]

theorem pushUnique_of_none (m : List (String × List String)) (k x : String)
    (h : lookupMap m k = none) : pushUnique m k x = m := by
  unfold pushUnique; rw [h]

/-- Invariant of the connectivity edge loop: after processing the edges in
`processed`, every known node id maps to a duplicate-free neighbor list whose
members are exactly the undirected other endpoints of the processed edges with
both endpoints known; unknown ids have no entry. -/
def ConnInv (nodes : List Node) (processed : List Edge)
    (m : List (String × List String)) : Prop :=
  ∀ k : String,
    (k ∈ nodeIds nodes → ∃ l, lookupMap m k = some l ∧ l.Nodup ∧
        ∀ x, x ∈ l ↔ ∃ e ∈ processed, edgeOk nodes e ∧ edgeLinks e k x) ∧
    (k ∉ nodeIds nodes → lookupMap m k = none)

theorem nodeIds_cons (n : Node) (rest : List Node) :
    nodeIds (n :: rest) = n.id :: nodeIds rest := rfl

theorem edgeOk_iff (nodes : List Node) (e : Edge) :
    edgeOk nodes e ↔ (e.«from» ∈ nodeIds nodes ∧ e.«to» ∈ nodeIds nodes) := Iff.rfl

theorem edgeLinks_iff (e : Edge) (n x : String) :
    edgeLinks e n x
      ↔ ((e.«from» = n ∧ e.«to» = x) ∨ (e.«to» = n ∧ e.«from» = x)) := Iff.rfl

theorem exists_mem_append_singleton {α : Type} (l : List α) (a : α) (P : α → Prop) :
    (∃ x ∈ l ++ [a], P x) ↔ (∃ x ∈ l, P x) ∨ P a := by
  constructor
  · rintro ⟨x, hx, hP⟩
    rcases List.mem_append.mp hx with h | h
    · exact Or.inl ⟨x, h, hP⟩
    · rw [List.mem_singleton] at h; subst h; exact Or.inr hP
  · rintro (⟨x, hx, hP⟩ | hP)
    · exact ⟨x, List.mem_append_left _ hx, hP⟩
    · exact ⟨a, List.mem_append_right _ (List.mem_singleton_self a), hP⟩

/-- Extending a duplicate-free neighbor list by one endpoint, as `pushUnique`
does, keeps it duplicate-free and adds exactly that endpoint to its members. -/
theorem neighbor_list_extend (l : List String) (x0 : String) (hnd : l.Nodup)
    (P : String → Prop) (hmem : ∀ x, x ∈ l ↔ P x) :
    (if x0 ∈ l then l else l ++ [x0]).Nodup ∧
      ∀ x, x ∈ (if x0 ∈ l then l else l ++ [x0]) ↔ (P x ∨ x = x0) := by
  by_cases hx : x0 ∈ l
  · refine ⟨by simpa [hx] using hnd, fun x => ?_⟩
    simp only [hx, if_true]
    constructor
    · intro h; exact Or.inl ((hmem x).mp h)
    · rintro (h | h)
      · exact (hmem x).mpr h
      · subst h; exact hx
  · constructor
    · simp only [hx, if_false]
      rw [List.nodup_append]
      refine ⟨hnd, List.nodup_singleton _, ?_⟩
      intro a ha hb
      rw [List.mem_singleton] at hb; subst hb; exact hx ha
    · intro x
      simp only [hx, if_false, List.mem_append, List.mem_singleton]
      rw [hmem x]

theorem lookup_connInit (nodes : List Node) :
    ∀ (m0 : List (String × List String)) (k : String),
      lookupMap (nodes.foldl (fun m n => setMap m n.id ([] : List String)) m0) k
        = if k ∈ nodeIds nodes then some [] else lookupMap m0 k := by
  induction nodes with
  | nil =>
    intro m0 k
    simp [nodeIds]
  | cons n rest ih =>
    intro m0 k
    simp only [List.foldl_cons]
    rw [ih, nodeIds_cons]
    by_cases hk : k ∈ nodeIds rest
    · rw [if_pos hk, if_pos (List.mem_cons_of_mem _ hk)]
    · by_cases hkn : k = n.id
      · rw [if_neg hk, if_pos (by rw [hkn]; exact List.mem_cons_self _ _), hkn,
          lookupMap_setMap_self]
      · rw [if_neg hk, if_neg (by
            intro h
            rcases List.mem_cons.mp h with h | h
            · exact hkn h
            · exact hk h),
          lookupMap_setMap_ne _ _ _ _ hkn]

theorem calcConn_fst_fold (nodes : List Node) :
    ∀ (m1 : List (String × List String)) (m2 : List (String × Node)),
      (nodes.foldl
        (fun p n => (setMap p.1 n.id ([] : List String), setMap p.2 n.id n))
        (m1, m2)).1
        = nodes.foldl (fun m n => setMap m n.id ([] : List String)) m1 := by
  induction nodes with
  | nil => intros; rfl
  | cons n rest ih => intro m1 m2; simp only [List.foldl_cons]; exact ih _ _

theorem connInv_init (nodes : List Node) :
    ConnInv nodes []
      (nodes.foldl (fun m n => setMap m n.id ([] : List String)) []) := by
  intro k
  constructor
  · intro hk
    refine ⟨[], ?_, List.nodup_nil, ?_⟩
    · rw [lookup_connInit]; simp [hk]
    · intro x; simp
  · intro hk; rw [lookup_connInit]; simp [hk, lookupMap]

theorem connInv_addEdgeStep (nodes : List Node) (p : List Edge)
    (m : List (String × List String)) (e : Edge) (hInv : ConnInv nodes p m) :
    ConnInv nodes (p ++ [e]) (addEdgeStep m e) := by
  -- shared argument for the branches where the both-endpoints guard fails
  have skip : ¬ edgeOk nodes e → ConnInv nodes (p ++ [e]) m := by
    intro hnok k
    refine ⟨?_, (hInv k).2⟩
    intro hk
    obtain ⟨l, hl, hnd, hmem⟩ := (hInv k).1 hk
    refine ⟨l, hl, hnd, fun x => ?_⟩
    rw [hmem x, exists_mem_append_singleton]
    exact (or_iff_left fun h => hnok h.1).symm
  cases hf : lookupMap m e.«from» with
  | none =>
    have hfid : e.«from» ∉ nodeIds nodes := by
      intro hmem
      obtain ⟨l, hl, -, -⟩ := (hInv e.«from»).1 hmem
      rw [hf] at hl; exact Option.noConfusion hl
    have hstep : addEdgeStep m e = m := by unfold addEdgeStep; rw [hf]
    rw [hstep]
    exact skip fun hok => hfid ((edgeOk_iff nodes e).mp hok).1
  | some fl =>
    cases ht : lookupMap m e.«to» with
    | none =>
      have htid : e.«to» ∉ nodeIds nodes := by
        intro hmem
        obtain ⟨l, hl, -, -⟩ := (hInv e.«to»).1 hmem
        rw [ht] at hl; exact Option.noConfusion hl
      have hstep : addEdgeStep m e = m := by unfold addEdgeStep; rw [hf, ht]
      rw [hstep]
      exact skip fun hok => htid ((edgeOk_iff nodes e).mp hok).2
    | some tl =>
      have hfid : e.«from» ∈ nodeIds nodes := by
        by_contra hmem
        have := (hInv e.«from»).2 hmem
        rw [hf] at this; exact Option.noConfusion this
      have htid : e.«to» ∈ nodeIds nodes := by
        by_contra hmem
        have := (hInv e.«to»).2 hmem
        rw [ht] at this; exact Option.noConfusion this
      have hok : edgeOk nodes e := (edgeOk_iff nodes e).mpr ⟨hfid, htid⟩
      have hstep : addEdgeStep m e
          = pushUnique (pushUnique m e.«from» e.«to») e.«to» e.«from» := by
        unfold addEdgeStep; rw [hf, ht]
      rw [hstep]
      set m1 := pushUnique m e.«from» e.«to» with hm1
      set m2 := pushUnique m1 e.«to» e.«from» with hm2
      have hlook1f : lookupMap m1 e.«from»
          = some (if e.«to» ∈ fl then fl else fl ++ [e.«to»]) :=
        lookupMap_pushUnique_self m e.«from» e.«to» fl hf
      intro k
      constructor
      · intro hk
        obtain ⟨l, hl, hnd, hmem⟩ := (hInv k).1 hk
        by_cases hkt : k = e.«to»
        · subst hkt
          by_cases hft : e.«from» = e.«to»
          · -- self-loop: the second push finds the endpoint already present
            have hf' : lookupMap m e.«to» = some fl := by rw [← hft]; exact hf
            have hfl : fl = l := by
              rw [hf'] at hl; exact Option.some.inj hl
            subst hfl
            rw [hft] at hlook1f
            have hself : e.«from» ∈ (if e.«to» ∈ fl then fl else fl ++ [e.«to»]) := by
              rw [hft]
              by_cases hx : e.«to» ∈ fl <;> simp [hx]
            have hm2eq : m2 = m1 := by
              rw [hm2]
              exact pushUnique_of_mem m1 e.«to» e.«from» _ hlook1f hself
            obtain ⟨hnd2, hmem2⟩ := neighbor_list_extend fl e.«to» hnd _ hmem
            rw [hm2eq]
            refine ⟨_, hlook1f, hnd2, fun x => ?_⟩
            rw [hmem2 x, exists_mem_append_singleton]
            refine or_congr Iff.rfl ⟨fun h => ?_, fun h => ?_⟩
            · refine ⟨hok, (edgeLinks_iff e e.«to» x).mpr (Or.inr ⟨rfl, ?_⟩)⟩
              rw [hft, h]
            · rcases (edgeLinks_iff e e.«to» x).mp h.2 with ⟨-, h1⟩ | ⟨-, h1⟩
              · exact h1.symm
              · rw [hft] at h1; exact h1.symm
          · -- distinct endpoints, looking at the target: the list gains the source
            have htl : tl = l := by rw [ht] at hl; exact Option.some.inj hl
            subst htl
            have hlook1t : lookupMap m1 e.«to» = some tl := by
              rw [hm1, lookupMap_pushUnique_ne m e.«from» e.«to» e.«to»
                fun h => hft h.symm]
              exact ht
            have hlook2t : lookupMap m2 e.«to»
                = some (if e.«from» ∈ tl then tl else tl ++ [e.«from»]) :=
              lookupMap_pushUnique_self m1 e.«to» e.«from» tl hlook1t
            obtain ⟨hnd2, hmem2⟩ := neighbor_list_extend tl e.«from» hnd _ hmem
            refine ⟨_, hlook2t, hnd2, fun x => ?_⟩
            rw [hmem2 x, exists_mem_append_singleton]
            refine or_congr Iff.rfl ⟨fun h => ?_, fun h => ?_⟩
            · exact ⟨hok, (edgeLinks_iff e e.«to» x).mpr (Or.inr ⟨rfl, h.symm⟩)⟩
            · rcases (edgeLinks_iff e e.«to» x).mp h.2 with ⟨h1, -⟩ | ⟨-, h1⟩
              · exact absurd h1 hft
              · exact h1.symm
        · by_cases hkf : k = e.«from»
          · -- looking at the (distinct) source: the list gains the target
            subst hkf
            have hft : e.«to» ≠ e.«from» := fun h => hkt h.symm
            have hfl : fl = l := by rw [hf] at hl; exact Option.some.inj hl
            subst hfl
            have hlook2f : lookupMap m2 e.«from»
                = some (if e.«to» ∈ fl then fl else fl ++ [e.«to»]) := by
              rw [hm2, lookupMap_pushUnique_ne m1 e.«to» e.«from» e.«from»
                fun h => hft h.symm]
              exact hlook1f
            obtain ⟨hnd2, hmem2⟩ := neighbor_list_extend fl e.«to» hnd _ hmem
            refine ⟨_, hlook2f, hnd2, fun x => ?_⟩
            rw [hmem2 x, exists_mem_append_singleton]
            refine or_congr Iff.rfl ⟨fun h => ?_, fun h => ?_⟩
            · exact ⟨hok, (edgeLinks_iff e e.«from» x).mpr (Or.inl ⟨rfl, h.symm⟩)⟩
            · rcases (edgeLinks_iff e e.«from» x).mp h.2 with ⟨-, h1⟩ | ⟨h1, -⟩
              · exact h1.symm
              · exact absurd h1 hft
          · -- a bystander node: its list is untouched by this edge
            have hlook2k : lookupMap m2 k = some l := by
              rw [hm2, lookupMap_pushUnique_ne m1 e.«to» k e.«from»
                  fun h => hkt h,
                hm1, lookupMap_pushUnique_ne m e.«from» k e.«to»
                  fun h => hkf h]
              exact hl
            refine ⟨l, hlook2k, hnd, fun x => ?_⟩
            rw [hmem x, exists_mem_append_singleton]
            refine (or_iff_left fun h => ?_).symm
            rcases (edgeLinks_iff e k x).mp h.2 with ⟨h1, -⟩ | ⟨h1, -⟩
            · exact hkf h1.symm
            · exact hkt h1.symm
      · intro hk
        have hkf : k ≠ e.«from» := fun h => hk (h ▸ hfid)
        have hkt : k ≠ e.«to» := fun h => hk (h ▸ htid)
        rw [hm2, lookupMap_pushUnique_ne m1 e.«to» k e.«from» hkt,
          hm1, lookupMap_pushUnique_ne m e.«from» k e.«to» hkf]
        exact (hInv k).2 hk

theorem connInv_foldl (nodes : List Node) :
    ∀ (es : List Edge) (p : List Edge) (m : List (String × List String)),
      ConnInv nodes p m → ConnInv nodes (p ++ es) (es.foldl addEdgeStep m)
  | [], p, m, h => by simpa using h
  | e :: es, p, m, h => by
    have h1 := connInv_addEdgeStep nodes p m e h
    have h2 := connInv_foldl nodes es (p ++ [e]) (addEdgeStep m e) h1
    simpa using h2

/-- **C1**: for every node list and edge list given to `calculateConnectivity`,
the neighbor list of each node id `n` is duplicate-free and contains exactly
the distinct other endpoints (undirected) of those edges both of whose
endpoints are known node ids; edges with an unknown endpoint contribute
nothing and repeated edges are not recorded twice. -/
theorem calculateConnectivity_neighbors (nodes : List Node) (edges : List Edge)
    (n : String) (hn : n ∈ nodeIds nodes) :
    ∃ l, lookupMap (calculateConnectivity nodes edges).1 n = some l ∧ l.Nodup ∧
      ∀ x, x ∈ l ↔ ∃ e ∈ edges, edgeOk nodes e ∧ edgeLinks e n x := by
  have hbase := connInv_init nodes
  have h := connInv_foldl nodes edges [] _ hbase
  simp only [List.nil_append] at h
  show ∃ l, lookupMap (edges.foldl addEdgeStep
      (nodes.foldl
        (fun p n => (setMap p.1 n.id ([] : List String), setMap p.2 n.id n))
        ([], [])).1) n = some l ∧ _
  rw [calcConn_fst_fold]
  exact (h n).1 hn

/-- Scenario A's snapshot: feed `F1`, warehouse `W1`, one edge `F1 → W1`. -/
def scANodes : List Node :=
  [{ id := "F1", label := "Feed 1", group := "feed", level := 0 },
   { id := "W1", label := "Warehouse 1", group := "warehouse", level := 1 }]

/-- Scenario A's edge list. -/
def scAEdges : List Edge :=
  [{ id := "e1", «from» := "F1", «to» := "W1" }]

/-- Witness for C1 at Scenario A's snapshot, node `F1`. -/
theorem calculateConnectivity_neighbors_witness :
    "F1" ∈ nodeIds scANodes ∧
      ∃ l, lookupMap (calculateConnectivity scANodes scAEdges).1 "F1" = some l ∧
        l.Nodup ∧ ∀ x, x ∈ l ↔ ∃ e ∈ scAEdges, edgeOk scANodes e ∧ edgeLinks e "F1" x :=
  ⟨by decide, calculateConnectivity_neighbors scANodes scAEdges "F1" (by decide)⟩

/-! ## Disconnected-node filtering and the cross-snapshot search index -/

/-- The JS `Set` of all node ids appearing as an endpoint of at least one edge
in the view (`_drawGraphInternal`, "Hide Disconnected Nodes" block): for each
edge, `add(edge.from)` then `add(edge.to)`. -/
def connectedNodeIds (edges : List Edge) : List String :=
  dedupBy (fun s => s) (edges.flatMap (fun e => [e.«from», e.«to»]))

/-- `data.nodes = data.nodes.filter(node => connectedNodeIds.has(node.id))`. -/
def filterConnected (nodes : List Node) (edges : List Edge) : List Node :=
  nodes.filter (fun n => (connectedNodeIds edges).contains n.id)

theorem mem_dedupByAcc_subset {α : Type} (key : α → String) :
    ∀ (l : List α) (seen : List String) (b : α),
      b ∈ dedupByAcc key seen l → b ∈ l
  | [], _, _, hb => by simp [dedupByAcc] at hb
  | a :: rest, seen, b, hb => by
    by_cases hc : key a ∈ seen
    · rw [dedupByAcc, if_pos hc] at hb
      exact List.mem_cons_of_mem _ (mem_dedupByAcc_subset key rest seen b hb)
    · rw [dedupByAcc, if_neg hc] at hb
      rcases List.mem_cons.mp hb with h | h
      · exact h ▸ List.mem_cons_self _ _
      · exact List.mem_cons_of_mem _
          (mem_dedupByAcc_subset key rest (key a :: seen) b h)

theorem mem_connectedNodeIds (edges : List Edge) (s : String) :
    s ∈ connectedNodeIds edges ↔ ∃ e ∈ edges, e.«from» = s ∨ e.«to» = s := by
  unfold connectedNodeIds
  constructor
  · intro h
    have hmem := mem_dedupByAcc_subset (fun s => s)
      (edges.flatMap (fun e => [e.«from», e.«to»])) [] s h
    obtain ⟨e, he, hs⟩ := List.mem_flatMap.mp hmem
    rcases List.mem_cons.mp hs with h' | h'
    · exact ⟨e, he, Or.inl h'.symm⟩
    · rw [List.mem_singleton] at h'
      exact ⟨e, he, Or.inr h'.symm⟩
  · rintro ⟨e, he, hend⟩
    have hmem : s ∈ edges.flatMap (fun e => [e.«from», e.«to»]) := by
      refine List.mem_flatMap.mpr ⟨e, he, ?_⟩
      rcases hend with h | h
      · exact h ▸ List.mem_cons_self _ _
      · exact List.mem_cons_of_mem _ (h ▸ List.mem_singleton_self _)
    obtain ⟨b, hb, hkey⟩ := mem_dedupBy (fun s => s) _ s hmem
    simpa [← hkey] using hb

/-- `populateAllNodes` from the plain-JS `app.js`: collect the three snapshots'
node lists in order; the first occurrence of each id wins (`allNodesMap`). -/
def populateAllNodes (graphData : List (String × GraphStateData)) : List Node :=
  dedupBy Node.id
    ((["past", "current", "future"] : List String).flatMap
      (fun key => match lookupMap graphData key with
        | some d => d.nodes
        | none => []))

/-- Spec-worded connected-node filter, written for refinement comparison from
the sentence "edges whose endpoints are absent from the active node set must
be treated as data to ignore when computing connected node sets": keep exactly
the nodes incident to an edge *both* of whose endpoints are known. -/
def specConnectedFilter (nodes : List Node) (edges : List Edge) : List Node :=
  nodes.filter (fun n => edges.any (fun e =>
    decide (edgeOk nodes e) && (e.«from» == n.id || e.«to» == n.id)))

/-- A snapshot whose single node `A` has one dangling edge `A → B` (`B` is not
in the node list). -/
def c2Nodes : List Node := [{ id := "A", label := "A", group := "feed", level := 0 }]

/-- The dangling edge list for the C2 counterexample. -/
def c2Edges : List Edge := [{ id := "e1", «from» := "A", «to» := "B" }]

/-- **C2 counterexample**: the code's disconnected-node filter keeps `A`
because `A` is an endpoint of *some* edge, even though that edge's other
endpoint `B` is absent; the claim's reading ("edges whose endpoints are absent
from the active node set are ignored when computing the connected set") would
drop `A`. -/
theorem filterConnected_ne_specConnectedFilter :
    filterConnected c2Nodes c2Edges = c2Nodes ∧
      specConnectedFilter c2Nodes c2Edges = [] := by
  constructor <;> decide

/-- **C2 (amended)**: the node set handed to the rendering engine is exactly
the nodes that are endpoints of at least one edge of the snapshot — including
edges whose other endpoint is absent from the node list; a node with no
incident edges is excluded from the rendered node set but still exists in the
cross-snapshot `allNodes` search index. -/
theorem filterConnected_mem_and_populateAllNodes
    (graphData : List (String × GraphStateData)) (key : String)
    (d : GraphStateData) (hkey : key ∈ (["past", "current", "future"] : List String))
    (hd : lookupMap graphData key = some d) :
    (∀ n : Node, n ∈ filterConnected d.nodes d.edges ↔
        n ∈ d.nodes ∧ ∃ e ∈ d.edges, e.«from» = n.id ∨ e.«to» = n.id) ∧
    (∀ n : Node, n ∈ d.nodes → ∃ b ∈ populateAllNodes graphData, b.id = n.id) := by
  constructor
  · intro n
    unfold filterConnected
    rw [List.mem_filter]
    constructor
    · rintro ⟨hmem, hc⟩
      refine ⟨hmem, ?_⟩
      rw [← mem_connectedNodeIds d.edges n.id]
      simpa using hc
    · rintro ⟨hmem, hex⟩
      refine ⟨hmem, ?_⟩
      have := (mem_connectedNodeIds d.edges n.id).mpr hex
      simpa using this
  · intro n hn
    have hmem : n ∈ (["past", "current", "future"] : List String).flatMap
        (fun key => match lookupMap graphData key with
          | some d => d.nodes
          | none => []) := by
      refine List.mem_flatMap.mpr ⟨key, hkey, ?_⟩
      rw [hd]
      exact hn
    exact mem_dedupBy Node.id _ n hmem

/-- Scenario B's snapshot data: Scenario A plus feed `F2` with no edges. -/
def scBData : GraphStateData :=
  { nodes := scANodes ++ [{ id := "F2", label := "Feed 2", group := "feed", level := 0 }],
    edges := scAEdges }

/-- Scenario B's full graph data: every snapshot holds Scenario B's dataset. -/
def scBGraphData : List (String × GraphStateData) :=
  [("past", scBData), ("current", scBData), ("future", scBData)]

/-- Witness for the amended C2 at Scenario B: `F2` is dropped by the filter
yet represented in the search index. -/
theorem filterConnected_mem_and_populateAllNodes_witness :
    ("past" ∈ (["past", "current", "future"] : List String) ∧
        lookupMap scBGraphData "past" = some scBData) ∧
      ((∀ n : Node, n ∈ filterConnected scBData.nodes scBData.edges ↔
          n ∈ scBData.nodes ∧ ∃ e ∈ scBData.edges, e.«from» = n.id ∨ e.«to» = n.id) ∧
       (∀ n : Node, n ∈ scBData.nodes →
          ∃ b ∈ populateAllNodes scBGraphData, b.id = n.id)) :=
  ⟨⟨by decide, by decide⟩,
    filterConnected_mem_and_populateAllNodes scBGraphData "past" scBData
      (by decide) (by decide)⟩

/-! ## Layout engine: clustered-force pre-positioning and the manual
left-to-right layout -/

/-- Enumerate nodes with their original positions, starting at `s`. The JS
layout passes mutate node objects in place; original position identifies each
object here. -/
def enumNodes : Nat → List Node → List (Nat × Node)
  | _, [] => []
  | i, n :: rest => (i, n) :: enumNodes (i + 1) rest

/-- Keep the tagged nodes satisfying a bucket predicate (the grouping loops'
`groups[node.group].push(node)`). -/
def filterPairs (pb : Node → Bool) : List (Nat × Node) → List (Nat × Node)
  | [] => []
  | (i, n) :: rest =>
    if pb n then (i, n) :: filterPairs pb rest else filterPairs pb rest

/-- The bucket `groups[g]` built by the grouping loops: the nodes of group
`g`, in original order, tagged with their original positions. -/
def bucketWithIdx (nodes : List Node) (g : String) : List (Nat × Node) :=
  filterPairs (fun n => n.group == g) (enumNodes 0 nodes)

/-- A positional mutation performed on one node by a layout pass; fields left
`none` keep the node's previous value (the JS loops assign only some of
`x`, `y`, `fixed`). -/
structure NodeUpd where
  x : Option Int := none
  y : Option Int := none
  fixed : Option (Bool × Bool) := none
  deriving DecidableEq, Repr

/-- Apply a positional mutation to a node. -/
def applyUpd (n : Node) (u : NodeUpd) : Node :=
  { n with
    x := match u.x with | some v => some v | none => n.x,
    y := match u.y with | some v => some v | none => n.y,
    fixed := match u.fixed with | some f => some f | none => n.fixed }

/-- `bucket.forEach((node, index) => mutate(node, index))`, counting indices
from `k`: the per-original-position updates for one bucket. -/
def positionBucket (f : Nat → Node → NodeUpd) :
    Nat → List (Nat × Node) → List (Nat × NodeUpd)
  | _, [] => []
  | k, (i, n) :: rest => (i, f k n) :: positionBucket f (k + 1) rest

/-- `Math.ceil(Math.sqrt(len))` on a natural number. -/
def ceilSqrt (n : Nat) : Nat :=
  if Nat.sqrt n * Nat.sqrt n = n then Nat.sqrt n else Nat.sqrt n + 1

/-- `groupPositions` from `applyRoughPositioning`: the fixed per-group
anchors. -/
def groupPositions : List (String × (Int × Int)) :=
  [("feed", (0, 0)), ("warehouse", (400, 0)), ("datalake", (400, 300)),
   ("virtualisation", (800, 150)), ("logical_dw", (1200, 150))]

/-- `groupPositions[groupName] || { x: 0, y: 0 }`: unknown groups anchor at
the origin. -/
def groupAnchor (g : String) : Int × Int :=
  (lookupMap groupPositions g).getD (0, 0)

/-- The grid mutation for the node at bucket index `k` of a bucket of `cols`
columns anchored at `base`: `row = floor(k / cols)`, `col = k % cols`,
spaced 80 apart on both axes. -/
def roughUpd (base : Int × Int) (cols : Nat) (k : Nat) (_ : Node) : NodeUpd :=
  { x := some (base.1 + (↑(k % cols) : Int) * 80),
    y := some (base.2 + (↑(k / cols) : Int) * 80) }

/-- The per-node mutations performed by `applyRoughPositioning`'s
`Object.keys(groups).forEach` loop: groups in first-occurrence key order,
each bucket gridded from its anchor. -/
def roughUpdates (nodes : List Node) : List (Nat × NodeUpd) :=
  (dedupBy (fun s => s) (nodes.map Node.group)).flatMap (fun g =>
    positionBucket (roughUpd (groupAnchor g) (ceilSqrt (bucketWithIdx nodes g).length))
      0 (bucketWithIdx nodes g))

/-- `applyRoughPositioning`: bucket the nodes by group tag (JS object key
order = first occurrence of each group), then lay each bucket out on an
implicit grid of side `Math.ceil(Math.sqrt(bucket size))` offset from the
group's anchor. -/
def applyRoughPositioning (nodes : List Node) : List Node :=
  (enumNodes 0 nodes).map (fun q =>
    match lookupMap (roughUpdates nodes) q.1 with
    | some u => applyUpd q.2 u
    | none => q.2)

/-- Level 0's `levelWidth` in `applyManualLTRLayout`:
`min(feeds.length, 8) * xSpacing`, or 0 for an empty bucket. -/
def ltrLevelWidth0 (nodes : List Node) : Int :=
  let feeds := bucketWithIdx nodes "feed"
  if feeds.length > 0 then (↑(min feeds.length 8) : Int) * 200 else 0

/-- Level 1's `levelWidth`: `min(level1Nodes.length, 3) * xSpacing`, or 0 for
an empty bucket (`level1Nodes` = warehouses then datalakes). -/
def ltrLevelWidth1 (nodes : List Node) : Int :=
  let level1 := bucketWithIdx nodes "warehouse" ++ bucketWithIdx nodes "datalake"
  if level1.length > 0 then (↑(min level1.length 3) : Int) * 200 else 0

/-- Level 2's `levelWidth`: one `xSpacing` when any virtualisation node
exists, else 0. -/
def ltrLevelWidth2 (nodes : List Node) : Int :=
  let virt := bucketWithIdx nodes "virtualisation"
  if virt.length > 0 then 200 else 0

/-- Feed mutation: `node.x = (index % numColumns) * xSpacing` with
`numColumns = 8`, pinned on x only. -/
def ltrFeedUpd (k : Nat) (_ : Node) : NodeUpd :=
  { x := some ((↑(k % 8) : Int) * 200), fixed := some (true, false) }

/-- Level 1 mutation at horizontal offset `currentX = w0`: three columns;
datalake nodes additionally get `y = floor(index / 3) * ySpacing` and a full
pin, warehouses pin on x only. -/
def ltrLevel1Upd (w0 : Int) (k : Nat) (n : Node) : NodeUpd :=
  if n.group == "datalake" then
    { x := some (w0 + (↑(k % 3) : Int) * 200),
      y := some ((↑(k / 3) : Int) * 100),
      fixed := some (true, true) }
  else
    { x := some (w0 + (↑(k % 3) : Int) * 200), fixed := some (true, false) }

/-- Virtualisation mutation at offset `cx`: single column,
`y = index * ySpacing * 1.5`, fully pinned. -/
def ltrVirtUpd (cx : Int) (k : Nat) (_ : Node) : NodeUpd :=
  { x := some cx, y := some ((↑k : Int) * 150), fixed := some (true, true) }

/-- Logical-DW mutation at offset `cx`: pinned on x only. -/
def ltrLogicalUpd (cx : Int) (_ : Nat) (_ : Node) : NodeUpd :=
  { x := some cx, fixed := some (true, false) }

/-- `applyManualLTRLayout`: feeds in 8 columns at level 0; warehouses then
datalakes in 3 columns at offset `currentX = levelWidths[0]`; virtualisation
in one column at `levelWidths[0] + levelWidths[1]`; logical DWs at
`levelWidths[0] + levelWidths[1] + levelWidths[2]` — `currentX` accumulating
each level's width, with empty buckets pushing width 0. -/
def ltrUpdates (nodes : List Node) : List (Nat × NodeUpd) :=
  positionBucket ltrFeedUpd 0 (bucketWithIdx nodes "feed")
    ++ positionBucket (ltrLevel1Upd (ltrLevelWidth0 nodes)) 0
        (bucketWithIdx nodes "warehouse" ++ bucketWithIdx nodes "datalake")
    ++ positionBucket (ltrVirtUpd (ltrLevelWidth0 nodes + ltrLevelWidth1 nodes)) 0
        (bucketWithIdx nodes "virtualisation")
    ++ positionBucket
        (ltrLogicalUpd (ltrLevelWidth0 nodes + ltrLevelWidth1 nodes + ltrLevelWidth2 nodes))
        0 (bucketWithIdx nodes "logical_dw")

/-- Apply the LTR mutations to the node list. -/
def applyManualLTRLayout (nodes : List Node) : List Node :=
  (enumNodes 0 nodes).map (fun q =>
    match lookupMap (ltrUpdates nodes) q.1 with
    | some u => applyUpd q.2 u
    | none => q.2)

/-- The node's index within its bucket: the number of earlier nodes satisfying
the bucket predicate. -/
def groupIdxBefore (nodes : List Node) (g : String) (i : Nat) : Nat :=
  ((nodes.take i).filter (fun m => m.group == g)).length

/-- The bucket size of group `g`. -/
def groupCount (nodes : List Node) (g : String) : Nat :=
  (nodes.filter (fun m => m.group == g)).length

theorem lookupMap_append_some {κ α : Type} [DecidableEq κ] :
    ∀ (l1 l2 : List (κ × α)) (k : κ) (v : α),
      lookupMap l1 k = some v → lookupMap (l1 ++ l2) k = some v
  | [], _, _, _, h => by simp [lookupMap] at h
  | (k', v') :: rest, l2, k, v, h => by
    simp only [List.cons_append, lookupMap] at h ⊢
    by_cases hk : k = k'
    · rw [if_pos hk] at h ⊢; exact h
    · rw [if_neg hk] at h ⊢
      exact lookupMap_append_some rest l2 k v h

theorem lookupMap_append_none {κ α : Type} [DecidableEq κ] :
    ∀ (l1 l2 : List (κ × α)) (k : κ),
      lookupMap l1 k = none → lookupMap (l1 ++ l2) k = lookupMap l2 k
  | [], _, _, _ => rfl
  | (k', v') :: rest, l2, k, h => by
    simp only [List.cons_append, lookupMap] at h ⊢
    by_cases hk : k = k'
    · rw [if_pos hk] at h; exact Option.noConfusion h
    · rw [if_neg hk] at h ⊢
      exact lookupMap_append_none rest l2 k h

theorem positionBucket_append (f : Nat → Node → NodeUpd) :
    ∀ (a b : List (Nat × Node)) (k : Nat),
      positionBucket f k (a ++ b)
        = positionBucket f k a ++ positionBucket f (k + a.length) b
  | [], b, k => by simp [positionBucket]
  | (i, n) :: rest, b, k => by
    rw [List.cons_append, positionBucket, positionBucket,
      positionBucket_append f rest b (k + 1), List.length_cons, List.cons_append]
    have harith : k + (rest.length + 1) = k + 1 + rest.length := by omega
    rw [harith]

theorem positionBucket_lookup_lt (f : Nat → Node → NodeUpd) (pb : Node → Bool) :
    ∀ (l : List Node) (s k j : Nat), j < s →
      lookupMap (positionBucket f k (filterPairs pb (enumNodes s l))) j = none
  | [], _, _, _, _ => rfl
  | n :: rest, s, k, j, hj => by
    rw [enumNodes, filterPairs]
    by_cases hpn : pb n
    · rw [if_pos hpn, positionBucket]
      simp only [lookupMap]
      rw [if_neg (by omega)]
      exact positionBucket_lookup_lt f pb rest (s + 1) (k + 1) j (by omega)
    · rw [if_neg hpn]
      exact positionBucket_lookup_lt f pb rest (s + 1) k j (by omega)

theorem positionBucket_lookup_pos (f : Nat → Node → NodeUpd) (pb : Node → Bool) :
    ∀ (l : List Node) (s k i : Nat) (n : Node),
      l[i]? = some n → pb n = true →
      lookupMap (positionBucket f k (filterPairs pb (enumNodes s l))) (s + i)
        = some (f (k + ((l.take i).filter pb).length) n)
  | [], _, _, i, n, hn, _ => by simp at hn
  | m :: rest, s, k, 0, n, hn, hpb => by
    have hm : m = n := by simpa using hn
    subst hm
    rw [enumNodes, filterPairs, if_pos hpb, positionBucket]
    simp only [lookupMap]
    rw [if_pos (show s + 0 = s by omega)]
    simp
  | m :: rest, s, k, i + 1, n, hn, hpb => by
    have hn' : rest[i]? = some n := by simpa using hn
    rw [enumNodes, filterPairs]
    by_cases hpm : pb m
    · rw [if_pos hpm, positionBucket]
      simp only [lookupMap]
      rw [if_neg (by omega)]
      have ih := positionBucket_lookup_pos f pb rest (s + 1) (k + 1) i n hn' hpb
      have harith : k + (((m :: rest).take (i + 1)).filter pb).length
          = k + 1 + ((rest.take i).filter pb).length := by
        rw [List.take_succ_cons, List.filter_cons, if_pos hpm, List.length_cons]
        omega
      rw [harith, show s + (i + 1) = s + 1 + i by omega]
      exact ih
    · rw [if_neg hpm]
      have ih := positionBucket_lookup_pos f pb rest (s + 1) k i n hn' hpb
      have harith : k + (((m :: rest).take (i + 1)).filter pb).length
          = k + ((rest.take i).filter pb).length := by
        rw [List.take_succ_cons, List.filter_cons, if_neg hpm]
      rw [harith, show s + (i + 1) = s + 1 + i by omega]
      exact ih

theorem positionBucket_lookup_neg (f : Nat → Node → NodeUpd) (pb : Node → Bool) :
    ∀ (l : List Node) (s k i : Nat) (n : Node),
      l[i]? = some n → pb n = false →
      lookupMap (positionBucket f k (filterPairs pb (enumNodes s l))) (s + i) = none
  | [], _, _, i, n, hn, _ => by simp at hn
  | m :: rest, s, k, 0, n, hn, hpb => by
    have hm : m = n := by simpa using hn
    subst hm
    rw [enumNodes, filterPairs, if_neg (by rw [hpb]; exact Bool.false_ne_true)]
    rw [show s + 0 = s by omega]
    exact positionBucket_lookup_lt f pb rest (s + 1) k s (by omega)
  | m :: rest, s, k, i + 1, n, hn, hpb => by
    have hn' : rest[i]? = some n := by simpa using hn
    rw [enumNodes, filterPairs]
    by_cases hpm : pb m
    · rw [if_pos hpm, positionBucket]
      simp only [lookupMap]
      rw [if_neg (by omega)]
      rw [show s + (i + 1) = s + 1 + i by omega]
      exact positionBucket_lookup_neg f pb rest (s + 1) (k + 1) i n hn' hpb
    · rw [if_neg hpm]
      rw [show s + (i + 1) = s + 1 + i by omega]
      exact positionBucket_lookup_neg f pb rest (s + 1) k i n hn' hpb

theorem filterPairs_length (pb : Node → Bool) :
    ∀ (l : List Node) (s : Nat),
      (filterPairs pb (enumNodes s l)).length = (l.filter pb).length
  | [], _ => rfl
  | m :: rest, s => by
    rw [enumNodes, filterPairs, List.filter_cons]
    by_cases hpm : pb m
    · rw [if_pos hpm, if_pos hpm, List.length_cons, List.length_cons,
        filterPairs_length pb rest (s + 1)]
    · rw [if_neg hpm, if_neg hpm]
      exact filterPairs_length pb rest (s + 1)

theorem bucketWithIdx_length (nodes : List Node) (g : String) :
    (bucketWithIdx nodes g).length = groupCount nodes g :=
  filterPairs_length (fun n => n.group == g) nodes 0

theorem enumNodes_getElem (l : List Node) :
    ∀ (s i : Nat), (enumNodes s l)[i]? = (l[i]?).map (fun n => (s + i, n))
  | s, i => by
    induction l generalizing s i with
    | nil => simp [enumNodes]
    | cons m rest ih =>
      rw [enumNodes]
      cases i with
      | zero => simp
      | succ j =>
        rw [List.getElem?_cons_succ, List.getElem?_cons_succ, ih (s + 1) j]
        cases rest[j]? with
        | none => rfl
        | some n => simp [Option.map]; omega

theorem lookupMap_eq_none_of_not_mem {κ α : Type} [DecidableEq κ] :
    ∀ (m : List (κ × α)) (k : κ), k ∉ m.map Prod.fst → lookupMap m k = none
  | [], _, _ => rfl
  | (k', v') :: rest, k, h => by
    simp only [List.map_cons, List.mem_cons] at h
    push_neg at h
    simp only [lookupMap]
    rw [if_neg h.1]
    exact lookupMap_eq_none_of_not_mem rest k h.2

/-- Looking up the node at original position `i` among the per-group-bucket
mutations of a key walk finds exactly its own group's mutation, at its index
within that bucket. -/
theorem lookup_groupKeys_updates (nodes : List Node) (i : Nat) (n : Node)
    (hn : nodes[i]? = some n) (F : String → Nat → Node → NodeUpd) :
    ∀ (keys : List String), n.group ∈ keys →
      lookupMap (keys.flatMap (fun g =>
        positionBucket (F g) 0 (bucketWithIdx nodes g))) i
        = some (F n.group (groupIdxBefore nodes n.group i) n)
  | [], hg => absurd hg (List.not_mem_nil _)
  | g' :: keys', hg => by
    rw [List.flatMap_cons]
    by_cases hgg : n.group = g'
    · subst hgg
      have hpos := positionBucket_lookup_pos (F n.group) (fun m => m.group == n.group)
        nodes 0 0 i n hn (by simp)
      rw [show (0 : Nat) + i = i by omega, Nat.zero_add] at hpos
      simp only [bucketWithIdx]
      exact lookupMap_append_some _ _ i _ hpos
    · have hneg := positionBucket_lookup_neg (F g') (fun m => m.group == g')
        nodes 0 0 i n hn (by simp [hgg])
      rw [show (0 : Nat) + i = i by omega] at hneg
      simp only [bucketWithIdx]
      rw [lookupMap_append_none _ _ i hneg]
      exact lookup_groupKeys_updates nodes i n hn F keys' (by
        rcases List.mem_cons.mp hg with h | h
        · exact absurd h hgg
        · exact h)

/-- Shared reassembly step: the positioned list's entry at `i` is the original
node with its looked-up mutation applied. -/
theorem layout_map_getElem (updates : List (Nat × NodeUpd)) (nodes : List Node)
    (i : Nat) (n : Node) (hn : nodes[i]? = some n) :
    ((enumNodes 0 nodes).map (fun q =>
      match lookupMap updates q.1 with
      | some u => applyUpd q.2 u
      | none => q.2))[i]?
      = some (match lookupMap updates i with
        | some u => applyUpd n u
        | none => n) := by
  rw [List.getElem?_map, enumNodes_getElem nodes 0 i, hn]
  simp

/-- **C6**: in the clustered-force pre-positioning, every node is bucketed by
its group tag and placed on its bucket's implicit grid — grid side
`⌈√(bucket size)⌉`, column `k % side`, row `k / side` for the node at bucket
index `k` — offset from the group's fixed anchor; a node whose group is not in
`groupPositions` uses the origin anchor rather than erroring. -/
theorem applyRoughPositioning_grid (nodes : List Node) (i : Nat) (n : Node)
    (hn : nodes[i]? = some n) :
    (applyRoughPositioning nodes)[i]? = some
      { n with
        x := some ((groupAnchor n.group).1
          + (↑(groupIdxBefore nodes n.group i % ceilSqrt (groupCount nodes n.group)) : Int) * 80),
        y := some ((groupAnchor n.group).2
          + (↑(groupIdxBefore nodes n.group i / ceilSqrt (groupCount nodes n.group)) : Int) * 80) } ∧
    (n.group ∉ groupPositions.map Prod.fst → groupAnchor n.group = (0, 0)) := by
  constructor
  · have hmemn : n ∈ nodes := by
      have := List.getElem?_eq_some_iff.mp hn
      obtain ⟨hlt, hget⟩ := this
      exact hget ▸ List.getElem_mem hlt
    have hgk : n.group ∈ dedupBy (fun s => s) (nodes.map Node.group) := by
      obtain ⟨b, hb, hbeq⟩ := mem_dedupBy (fun s => s) (nodes.map Node.group) n.group
        (List.mem_map_of_mem Node.group hmemn)
      rwa [← hbeq]
    have hlook := lookup_groupKeys_updates nodes i n hn
      (fun g => roughUpd (groupAnchor g) (ceilSqrt (bucketWithIdx nodes g).length))
      (dedupBy (fun s => s) (nodes.map Node.group)) hgk
    unfold applyRoughPositioning
    rw [layout_map_getElem (roughUpdates nodes) nodes i n hn]
    unfold roughUpdates
    rw [hlook]
    simp only [applyUpd, roughUpd, bucketWithIdx_length]
  · intro h
    unfold groupAnchor
    rw [lookupMap_eq_none_of_not_mem _ _ h]
    rfl

/-- A feed node of the C6 witness list, preceded by one feed and one
unknown-group node. -/
def c6FeedNode : Node := { id := "F2", label := "Feed 2", group := "feed", level := 0 }

/-- Node list for the C6 witness: two feeds around an unknown group. -/
def c6Nodes : List Node :=
  [{ id := "F1", label := "Feed 1", group := "feed", level := 0 },
   { id := "X1", label := "Mystery", group := "mystery", level := 0 },
   c6FeedNode]

/-- Witness for C6 at a concrete bucket: second feed node of a two-feed
bucket (side `⌈√2⌉ = 2`, column 1, row 0). -/
theorem applyRoughPositioning_grid_witness :
    c6Nodes[2]? = some c6FeedNode ∧
      ((applyRoughPositioning c6Nodes)[2]? = some
        { c6FeedNode with
          x := some ((groupAnchor c6FeedNode.group).1
            + (↑(groupIdxBefore c6Nodes c6FeedNode.group 2
                % ceilSqrt (groupCount c6Nodes c6FeedNode.group)) : Int) * 80),
          y := some ((groupAnchor c6FeedNode.group).2
            + (↑(groupIdxBefore c6Nodes c6FeedNode.group 2
                / ceilSqrt (groupCount c6Nodes c6FeedNode.group)) : Int) * 80) } ∧
       (c6FeedNode.group ∉ groupPositions.map Prod.fst →
          groupAnchor c6FeedNode.group = (0, 0))) :=
  ⟨by decide, applyRoughPositioning_grid c6Nodes 2 c6FeedNode (by decide)⟩

/-- **C5**: in the manual left-to-right layout, the feed node at bucket index
`k` sits in column `k % 8` (so the 9th feed node wraps to column 0); each
later level's horizontal offset is the cumulative width of all prior levels
(`levelWidths` accumulated into `currentX`), warehouses and datalakes sharing
level 1 with datalakes indexed after all warehouses; and an empty bucket
contributes zero width to the cumulative offset. -/
theorem applyManualLTRLayout_spec (nodes : List Node) (i : Nat) (n : Node)
    (hn : nodes[i]? = some n) :
    ((n.group = "feed" →
        (applyManualLTRLayout nodes)[i]? = some
          { n with x := some ((↑(groupIdxBefore nodes "feed" i % 8) : Int) * 200),
                   fixed := some (true, false) }) ∧
     (n.group = "warehouse" →
        (applyManualLTRLayout nodes)[i]? = some
          { n with
            x := some (ltrLevelWidth0 nodes
              + (↑(groupIdxBefore nodes "warehouse" i % 3) : Int) * 200),
            fixed := some (true, false) }) ∧
     (n.group = "datalake" →
        (applyManualLTRLayout nodes)[i]? = some
          { n with
            x := some (ltrLevelWidth0 nodes
              + (↑((groupCount nodes "warehouse" + groupIdxBefore nodes "datalake" i) % 3) : Int)
                * 200),
            y := some ((↑((groupCount nodes "warehouse" + groupIdxBefore nodes "datalake" i) / 3) : Int)
                * 100),
            fixed := some (true, true) }) ∧
     (n.group = "virtualisation" →
        (applyManualLTRLayout nodes)[i]? = some
          { n with
            x := some (ltrLevelWidth0 nodes + ltrLevelWidth1 nodes),
            y := some ((↑(groupIdxBefore nodes "virtualisation" i) : Int) * 150),
            fixed := some (true, true) }) ∧
     (n.group = "logical_dw" →
        (applyManualLTRLayout nodes)[i]? = some
          { n with
            x := some (ltrLevelWidth0 nodes + ltrLevelWidth1 nodes + ltrLevelWidth2 nodes),
            fixed := some (true, false) })) ∧
    (groupCount nodes "feed" = 0 → ltrLevelWidth0 nodes = 0) ∧
    (groupCount nodes "warehouse" + groupCount nodes "datalake" = 0 →
      ltrLevelWidth1 nodes = 0) ∧
    (groupCount nodes "virtualisation" = 0 → ltrLevelWidth2 nodes = 0) := by
  have hres := layout_map_getElem (ltrUpdates nodes) nodes i n hn
  refine ⟨⟨?_, ?_, ?_, ?_, ?_⟩, ?_, ?_, ?_⟩
  · -- feed
    intro hg
    have hA := positionBucket_lookup_pos ltrFeedUpd (fun m => m.group == "feed")
      nodes 0 0 i n hn (by simp [hg])
    simp only [Nat.zero_add] at hA
    have hlook : lookupMap (ltrUpdates nodes) i
        = some (ltrFeedUpd (groupIdxBefore nodes "feed" i) n) := by
      unfold ltrUpdates bucketWithIdx
      exact lookupMap_append_some _ _ i _
        (lookupMap_append_some _ _ i _ (lookupMap_append_some _ _ i _ hA))
    rw [applyManualLTRLayout, hres, hlook]
    simp [applyUpd, ltrFeedUpd]
  · -- warehouse
    intro hg
    have hA := positionBucket_lookup_neg ltrFeedUpd (fun m => m.group == "feed")
      nodes 0 0 i n hn (by simp [hg])
    simp only [Nat.zero_add] at hA
    have hBw := positionBucket_lookup_pos (ltrLevel1Upd (ltrLevelWidth0 nodes))
      (fun m => m.group == "warehouse") nodes 0 0 i n hn (by simp [hg])
    simp only [Nat.zero_add] at hBw
    have hlook : lookupMap (ltrUpdates nodes) i
        = some (ltrLevel1Upd (ltrLevelWidth0 nodes)
            (groupIdxBefore nodes "warehouse" i) n) := by
      unfold ltrUpdates bucketWithIdx
      rw [positionBucket_append]
      refine lookupMap_append_some _ _ i _ (lookupMap_append_some _ _ i _ ?_)
      rw [lookupMap_append_none _ _ i hA]
      exact lookupMap_append_some _ _ i _ hBw
    rw [applyManualLTRLayout, hres, hlook]
    simp [applyUpd, ltrLevel1Upd, hg]
  · -- datalake
    intro hg
    have hA := positionBucket_lookup_neg ltrFeedUpd (fun m => m.group == "feed")
      nodes 0 0 i n hn (by simp [hg])
    simp only [Nat.zero_add] at hA
    have hBw := positionBucket_lookup_neg (ltrLevel1Upd (ltrLevelWidth0 nodes))
      (fun m => m.group == "warehouse") nodes 0 0 i n hn (by simp [hg])
    simp only [Nat.zero_add] at hBw
    have hBd := positionBucket_lookup_pos (ltrLevel1Upd (ltrLevelWidth0 nodes))
      (fun m => m.group == "datalake") nodes 0
      ((filterPairs (fun m => m.group == "warehouse") (enumNodes 0 nodes)).length)
      i n hn (by simp [hg])
    simp only [Nat.zero_add] at hBd
    have hlook : lookupMap (ltrUpdates nodes) i
        = some (ltrLevel1Upd (ltrLevelWidth0 nodes)
            ((filterPairs (fun m => m.group == "warehouse") (enumNodes 0 nodes)).length
              + groupIdxBefore nodes "datalake" i) n) := by
      unfold ltrUpdates bucketWithIdx
      rw [positionBucket_append]
      simp only [Nat.zero_add]
      refine lookupMap_append_some _ _ i _ (lookupMap_append_some _ _ i _ ?_)
      rw [lookupMap_append_none _ _ i hA, lookupMap_append_none _ _ i hBw]
      exact hBd
    rw [applyManualLTRLayout, hres, hlook]
    simp [applyUpd, ltrLevel1Upd, hg, filterPairs_length, groupCount]
  · -- virtualisation
    intro hg
    have hA := positionBucket_lookup_neg ltrFeedUpd (fun m => m.group == "feed")
      nodes 0 0 i n hn (by simp [hg])
    simp only [Nat.zero_add] at hA
    have hBw := positionBucket_lookup_neg (ltrLevel1Upd (ltrLevelWidth0 nodes))
      (fun m => m.group == "warehouse") nodes 0 0 i n hn (by simp [hg])
    simp only [Nat.zero_add] at hBw
    have hBd := positionBucket_lookup_neg (ltrLevel1Upd (ltrLevelWidth0 nodes))
      (fun m => m.group == "datalake") nodes 0
      ((filterPairs (fun m => m.group == "warehouse") (enumNodes 0 nodes)).length)
      i n hn (by simp [hg])
    simp only [Nat.zero_add] at hBd
    have hC := positionBucket_lookup_pos
      (ltrVirtUpd (ltrLevelWidth0 nodes + ltrLevelWidth1 nodes))
      (fun m => m.group == "virtualisation") nodes 0 0 i n hn (by simp [hg])
    simp only [Nat.zero_add] at hC
    have hlook : lookupMap (ltrUpdates nodes) i
        = some (ltrVirtUpd (ltrLevelWidth0 nodes + ltrLevelWidth1 nodes)
            (groupIdxBefore nodes "virtualisation" i) n) := by
      unfold ltrUpdates bucketWithIdx
      rw [positionBucket_append]
      simp only [Nat.zero_add]
      refine lookupMap_append_some _ _ i _ ?_
      rw [lookupMap_append_none _ _ i (by
        rw [lookupMap_append_none _ _ i hA, lookupMap_append_none _ _ i hBw]
        exact hBd)]
      exact hC
    rw [applyManualLTRLayout, hres, hlook]
    simp [applyUpd, ltrVirtUpd]
  · -- logical_dw
    intro hg
    have hA := positionBucket_lookup_neg ltrFeedUpd (fun m => m.group == "feed")
      nodes 0 0 i n hn (by simp [hg])
    simp only [Nat.zero_add] at hA
    have hBw := positionBucket_lookup_neg (ltrLevel1Upd (ltrLevelWidth0 nodes))
      (fun m => m.group == "warehouse") nodes 0 0 i n hn (by simp [hg])
    simp only [Nat.zero_add] at hBw
    have hBd := positionBucket_lookup_neg (ltrLevel1Upd (ltrLevelWidth0 nodes))
      (fun m => m.group == "datalake") nodes 0
      ((filterPairs (fun m => m.group == "warehouse") (enumNodes 0 nodes)).length)
      i n hn (by simp [hg])
    simp only [Nat.zero_add] at hBd
    have hC := positionBucket_lookup_neg
      (ltrVirtUpd (ltrLevelWidth0 nodes + ltrLevelWidth1 nodes))
      (fun m => m.group == "virtualisation") nodes 0 0 i n hn (by simp [hg])
    simp only [Nat.zero_add] at hC
    have hD := positionBucket_lookup_pos
      (ltrLogicalUpd (ltrLevelWidth0 nodes + ltrLevelWidth1 nodes + ltrLevelWidth2 nodes))
      (fun m => m.group == "logical_dw") nodes 0 0 i n hn (by simp [hg])
    simp only [Nat.zero_add] at hD
    have hlook : lookupMap (ltrUpdates nodes) i
        = some (ltrLogicalUpd
            (ltrLevelWidth0 nodes + ltrLevelWidth1 nodes + ltrLevelWidth2 nodes)
            (groupIdxBefore nodes "logical_dw" i) n) := by
      unfold ltrUpdates bucketWithIdx
      rw [positionBucket_append]
      simp only [Nat.zero_add]
      rw [lookupMap_append_none _ _ i (by
        rw [lookupMap_append_none _ _ i (by
          rw [lookupMap_append_none _ _ i hA, lookupMap_append_none _ _ i hBw]
          exact hBd)]
        exact hC)]
      exact hD
    rw [applyManualLTRLayout, hres, hlook]
    simp [applyUpd, ltrLogicalUpd]
  · intro h
    simp [ltrLevelWidth0, bucketWithIdx_length, h]
  · intro h
    have hw : groupCount nodes "warehouse" = 0 := by omega
    have hd : groupCount nodes "datalake" = 0 := by omega
    simp [ltrLevelWidth1, List.length_append, bucketWithIdx_length, hw, hd]
  · intro h
    simp [ltrLevelWidth2, bucketWithIdx_length, h]

/-- A feed node with the given id. -/
def fd (s : String) : Node := { id := s, label := s, group := "feed", level := 0 }

/-- Scenario D's node list: nine feed nodes. -/
def scDNodes : List Node :=
  [fd "F1", fd "F2", fd "F3", fd "F4", fd "F5", fd "F6", fd "F7", fd "F8", fd "F9"]

/-- Witness for C5 at Scenario D: the ninth feed node (index 8) wraps to
column `8 % 8 = 0`. -/
theorem applyManualLTRLayout_spec_witness :
    scDNodes[8]? = some (fd "F9") ∧
      ((((fd "F9").group = "feed" →
          (applyManualLTRLayout scDNodes)[8]? = some
            { fd "F9" with
              x := some ((↑(groupIdxBefore scDNodes "feed" 8 % 8) : Int) * 200),
              fixed := some (true, false) }) ∧
        ((fd "F9").group = "warehouse" →
          (applyManualLTRLayout scDNodes)[8]? = some
            { fd "F9" with
              x := some (ltrLevelWidth0 scDNodes
                + (↑(groupIdxBefore scDNodes "warehouse" 8 % 3) : Int) * 200),
              fixed := some (true, false) }) ∧
        ((fd "F9").group = "datalake" →
          (applyManualLTRLayout scDNodes)[8]? = some
            { fd "F9" with
              x := some (ltrLevelWidth0 scDNodes
                + (↑((groupCount scDNodes "warehouse" + groupIdxBefore scDNodes "datalake" 8) % 3) : Int)
                  * 200),
              y := some ((↑((groupCount scDNodes "warehouse" + groupIdxBefore scDNodes "datalake" 8) / 3) : Int)
                  * 100),
              fixed := some (true, true) }) ∧
        ((fd "F9").group = "virtualisation" →
          (applyManualLTRLayout scDNodes)[8]? = some
            { fd "F9" with
              x := some (ltrLevelWidth0 scDNodes + ltrLevelWidth1 scDNodes),
              y := some ((↑(groupIdxBefore scDNodes "virtualisation" 8) : Int) * 150),
              fixed := some (true, true) }) ∧
        ((fd "F9").group = "logical_dw" →
          (applyManualLTRLayout scDNodes)[8]? = some
            { fd "F9" with
              x := some (ltrLevelWidth0 scDNodes + ltrLevelWidth1 scDNodes
                + ltrLevelWidth2 scDNodes),
              fixed := some (true, false) })) ∧
       (groupCount scDNodes "feed" = 0 → ltrLevelWidth0 scDNodes = 0) ∧
       (groupCount scDNodes "warehouse" + groupCount scDNodes "datalake" = 0 →
          ltrLevelWidth1 scDNodes = 0) ∧
       (groupCount scDNodes "virtualisation" = 0 → ltrLevelWidth2 scDNodes = 0)) :=
  ⟨by decide, applyManualLTRLayout_spec scDNodes 8 (fd "F9") (by decide)⟩

/-! ## Layout options and the render/simulation controller -/

/-- The physics block of the vis.js options that `getLayoutOptions` varies:
the solver name and `stabilization.enabled` (both `basePhysics` and
`stablePhysics` ship `stabilization.enabled: false`). Numeric tuning
constants are not modelled. -/
structure PhysicsConfig where
  solver : String
  stabilizationEnabled : Bool
  deriving DecidableEq, Repr

/-- The vis.js options `getLayoutOptions` varies: `physics: false` is
modelled as `none`. -/
structure NetOptions where
  hierarchicalEnabled : Bool
  physics : Option PhysicsConfig
  deriving DecidableEq, Repr

/-- `getLayoutOptions`, keyed on `selectedLayout`: `hierarchicalLR` uses
`stablePhysics` (barnesHut, stabilization disabled) with hierarchical layout
off; `hierarchicalUD` enables hierarchical layout and sets `physics: false`;
`clusteredForce` and the `default` case use `basePhysics` (forceAtlas2Based,
stabilization disabled). -/
def getLayoutOptions (selectedLayout : String) : NetOptions :=
  if selectedLayout = "hierarchicalLR" then
    { hierarchicalEnabled := false,
      physics := some { solver := "barnesHut", stabilizationEnabled := false } }
  else if selectedLayout = "hierarchicalUD" then
    { hierarchicalEnabled := true, physics := none }
  else
    { hierarchicalEnabled := false,
      physics := some { solver := "forceAtlas2Based", stabilizationEnabled := false } }

/-- Whether a render with these options stabilizes at all: physics must be on
and its stabilization enabled. -/
def stabilizationActive (o : NetOptions) : Bool :=
  match o.physics with
  | none => false
  | some p => p.stabilizationEnabled

/-- The cache key `` `${selectedState}_${selectedLayout}` ``. -/
def cacheKey (selectedState selectedLayout : String) : String :=
  selectedState ++ "_" ++ selectedLayout

/-- The live vis.Network instance as the claims observe it: the data and
options it was built with, the `cacheKey` its event closures captured, and a
build counter for identity. -/
structure NetworkInst where
  buildId : Nat
  nodes : List Node
  edges : List Edge
  options : NetOptions
  cacheKey : String
  deriving DecidableEq, Repr

/-- The component state the claims observe, plus an explicit model of the
armed-and-not-yet-cleared `setTimeout` handles (`pendingTimers`), a counter
for fresh timer/build identities, a flag for the render container's presence,
and a log of `console.error` calls. -/
structure AppState where
  graphData : List (String × GraphStateData)
  network : Option NetworkInst := none
  selectedState : String := "past"
  selectedLayout : String := "clusteredForce"
  isPhysicsEnabled : Bool := true
  stabilizationTimeout : Option Nat := none
  isLoading : Bool := false
  layoutCache : List (String × List (String × Pos)) := []
  containerPresent : Bool := true
  pendingTimers : List Nat := []
  nextTimerId : Nat := 0
  nextBuildId : Nat := 0
  errors : List String := []
  deriving DecidableEq, Repr

/-- `_drawGraphInternal`'s timer cleanup: `clearTimeout` on the stored handle
(the field itself is not nulled by the source). -/
def canceledTimers (st : AppState) : List Nat :=
  match st.stabilizationTimeout with
  | some t => st.pendingTimers.filter (fun u => u ≠ t)
  | none => st.pendingTimers

/-- Apply cached positions to the prepared nodes (`_drawGraphInternal`'s
cache-hit branch): nodes present in the cache take exactly the cached
coordinates, others are left as they are. -/
def applyCachedPositions (cached : List (String × Pos)) (nodes : List Node) : List Node :=
  nodes.map (fun node =>
    match lookupMap cached node.id with
    | some p => { node with x := some p.x, y := some p.y }
    | none => node)

/-- The prepared `data.nodes` of `_drawGraphInternal`: filter out
disconnected nodes, then either apply the cached positions for the active
(snapshot, strategy) key or pre-position by the selected strategy. -/
def drawNodes (st : AppState) (rawData : GraphStateData) : List Node :=
  let nodes0 := filterConnected rawData.nodes rawData.edges
  match lookupMap st.layoutCache (cacheKey st.selectedState st.selectedLayout) with
  | some cached => applyCachedPositions cached nodes0
  | none =>
    if st.selectedLayout = "hierarchicalLR" then applyManualLTRLayout nodes0
    else if st.selectedLayout = "clusteredForce" then applyRoughPositioning nodes0
    else nodes0

/-- The options of `_drawGraphInternal`: `getLayoutOptions`, with
stabilization forced off when cached positions exist and physics is truthy. -/
def drawOptions (st : AppState) : NetOptions :=
  let options0 := getLayoutOptions st.selectedLayout
  match lookupMap st.layoutCache (cacheKey st.selectedState st.selectedLayout),
      options0.physics with
  | some _, some p =>
    { options0 with physics := some { p with stabilizationEnabled := false } }
  | _, _ => options0

/-- `_drawGraphInternal`: destroy the previous instance and clear any pending
auto-disable timer, guard on the container and on the snapshot's data (the
missing-data branch logs and aborts), prepare `drawNodes`/`drawOptions`, sync
the physics flag with the options (`options.physics !== false`), and build
the fresh instance. `drawNodes`/`drawOptions` repeat the pure cache lookup
the source performs once; `optimizeNodeRendering` and the edge mapping only
touch styling fields not modelled, and the trailing search-term re-apply is a
styling pass outside this state transition. -/
def drawGraphInternal (st : AppState) : AppState :=
  let st1 : AppState := { st with network := none, pendingTimers := canceledTimers st }
  if st1.containerPresent = false then
    { st1 with isLoading := false }
  else
    match lookupMap st1.graphData st1.selectedState with
    | none =>
      { st1 with
        isLoading := false,
        errors := st1.errors ++ ["No data for state: " ++ st1.selectedState] }
    | some rawData =>
      { st1 with
        isPhysicsEnabled := (drawOptions st).physics.isSome,
        network := some
          { buildId := st1.nextBuildId,
            nodes := drawNodes st rawData,
            edges := rawData.edges,
            options := drawOptions st,
            cacheKey := cacheKey st.selectedState st.selectedLayout },
        nextBuildId := st1.nextBuildId + 1,
        isLoading := false }

/-- The one-shot `stabilizationIterationsDone` handler: snapshot the engine's
reported positions into the cache under the build's captured key, and arm the
delayed physics auto-disable. The engine's positions are an input — the model
does not simulate physics. -/
def stabilizationDone (st : AppState) (positions : List (String × Pos)) : AppState :=
  match st.network with
  | none => st
  | some inst =>
    { st with
      layoutCache := setMap st.layoutCache inst.cacheKey positions,
      stabilizationTimeout := some st.nextTimerId,
      pendingTimers := st.pendingTimers ++ [st.nextTimerId],
      nextTimerId := st.nextTimerId + 1 }

/-- The `dragEnd` handler: write `network.getPositions()` wholesale to the
cache under the build's captured key. -/
def dragEnd (st : AppState) (positions : List (String × Pos)) : AppState :=
  match st.network with
  | none => st
  | some inst =>
    { st with layoutCache := setMap st.layoutCache inst.cacheKey positions }

/-- Firing the auto-disable timer `t`: a cleared (non-pending) timer never
runs; a pending one runs its callback, which — if a network instance
currently exists — turns its physics off and clears the flag. -/
def timerFire (st : AppState) (t : Nat) : AppState :=
  if t ∈ st.pendingTimers then
    let st1 : AppState := { st with pendingTimers := st.pendingTimers.filter (fun u => u ≠ t) }
    match st1.network with
    | some inst =>
      { st1 with
        network := some { inst with options := { inst.options with physics := none } },
        isPhysicsEnabled := false }
    | none => st1
  else st

theorem stabilizationActive_drawOptions (st : AppState) :
    stabilizationActive (drawOptions st) = false := by
  unfold stabilizationActive drawOptions getLayoutOptions
  by_cases h1 : st.selectedLayout = "hierarchicalLR" <;>
    by_cases h2 : st.selectedLayout = "hierarchicalUD" <;>
      cases hcl : lookupMap st.layoutCache (cacheKey st.selectedState st.selectedLayout) <;>
        simp [h1, h2, hcl]

theorem drawOptions_physics_isSome (st : AppState) :
    (drawOptions st).physics.isSome
      = (getLayoutOptions st.selectedLayout).physics.isSome := by
  unfold drawOptions
  cases hcl : lookupMap st.layoutCache (cacheKey st.selectedState st.selectedLayout) <;>
    cases hph : (getLayoutOptions st.selectedLayout).physics <;> simp [hcl, hph]

theorem applyCachedPositions_getElem (cached : List (String × Pos)) (nodes : List Node)
    (j : Nat) (n : Node) (hn : nodes[j]? = some n) :
    (applyCachedPositions cached nodes)[j]?
      = some (match lookupMap cached n.id with
        | some p => { n with x := some p.x, y := some p.y }
        | none => n) := by
  unfold applyCachedPositions
  rw [List.getElem?_map, hn]
  rfl

/-- Normal form of a successful draw's network field. -/
theorem drawGraphInternal_network (st : AppState) (d : GraphStateData)
    (hc : st.containerPresent = true)
    (hd : lookupMap st.graphData st.selectedState = some d) :
    (drawGraphInternal st).network = some
      { buildId := st.nextBuildId,
        nodes := drawNodes st d,
        edges := d.edges,
        options := drawOptions st,
        cacheKey := cacheKey st.selectedState st.selectedLayout } := by
  unfold drawGraphInternal
  simp [hc, hd]

/-- Normal form of a successful draw's physics flag. -/
theorem drawGraphInternal_flag (st : AppState) (d : GraphStateData)
    (hc : st.containerPresent = true)
    (hd : lookupMap st.graphData st.selectedState = some d) :
    (drawGraphInternal st).isPhysicsEnabled = (drawOptions st).physics.isSome := by
  unfold drawGraphInternal
  simp [hc, hd]

/-- Normal form of a successful draw's pending-timer set. -/
theorem drawGraphInternal_pendingTimers (st : AppState) (d : GraphStateData)
    (hc : st.containerPresent = true)
    (hd : lookupMap st.graphData st.selectedState = some d) :
    (drawGraphInternal st).pendingTimers = canceledTimers st := by
  unfold drawGraphInternal
  simp [hc, hd]

/-- **C3**: whenever a cached position set exists for the active
(snapshot, strategy) key, the render applies exactly the cached coordinates to
the rendered nodes (a node with a cache entry takes it verbatim; one without
is left untouched) and the built options perform no physics stabilization, so
a revisit restores the cached layout without re-stabilization. -/
theorem drawGraphInternal_cacheHit (st : AppState) (d : GraphStateData)
    (cached : List (String × Pos))
    (hc : st.containerPresent = true)
    (hd : lookupMap st.graphData st.selectedState = some d)
    (hcache : lookupMap st.layoutCache (cacheKey st.selectedState st.selectedLayout)
      = some cached) :
    ∃ inst, (drawGraphInternal st).network = some inst ∧
      stabilizationActive inst.options = false ∧
      inst.nodes = applyCachedPositions cached (filterConnected d.nodes d.edges) ∧
      ∀ (j : Nat) (n : Node), (filterConnected d.nodes d.edges)[j]? = some n →
        (∀ p : Pos, lookupMap cached n.id = some p →
            inst.nodes[j]? = some { n with x := some p.x, y := some p.y }) ∧
          (lookupMap cached n.id = none → inst.nodes[j]? = some n) := by
  refine ⟨_, drawGraphInternal_network st d hc hd, ?_, ?_, ?_⟩
  · exact stabilizationActive_drawOptions st
  · show drawNodes st d = _
    unfold drawNodes
    rw [hcache]
  · intro j n hn
    have hnodes : drawNodes st d
        = applyCachedPositions cached (filterConnected d.nodes d.edges) := by
      unfold drawNodes
      rw [hcache]
    constructor
    · intro p hp
      show (drawNodes st d)[j]? = _
      rw [hnodes, applyCachedPositions_getElem cached _ j n hn, hp]
    · intro hp
      show (drawNodes st d)[j]? = _
      rw [hnodes, applyCachedPositions_getElem cached _ j n hn, hp]

/-- A cached two-node layout used by the concrete C3 state. -/
def c3Cached : List (String × Pos) := [("F1", ⟨0, 0⟩), ("W1", ⟨200, 40⟩)]

/-- Concrete state for the C3 witness: Scenario B's data with a cached layout
for the active (past, clusteredForce) pair. -/
def c3State : AppState :=
  { graphData := [("past", scBData)],
    layoutCache := [("past_clusteredForce", c3Cached)] }

/-- Witness for C3 at the concrete cached state. -/
theorem drawGraphInternal_cacheHit_witness :
    (c3State.containerPresent = true ∧
        lookupMap c3State.graphData c3State.selectedState = some scBData ∧
        lookupMap c3State.layoutCache (cacheKey c3State.selectedState c3State.selectedLayout)
          = some c3Cached) ∧
      ∃ inst, (drawGraphInternal c3State).network = some inst ∧
        stabilizationActive inst.options = false ∧
        inst.nodes = applyCachedPositions c3Cached
          (filterConnected scBData.nodes scBData.edges) ∧
        ∀ (j : Nat) (n : Node),
          (filterConnected scBData.nodes scBData.edges)[j]? = some n →
          (∀ p : Pos, lookupMap c3Cached n.id = some p →
              inst.nodes[j]? = some { n with x := some p.x, y := some p.y }) ∧
            (lookupMap c3Cached n.id = none →
              inst.nodes[j]? = some n) :=
  ⟨⟨by decide, by decide, by decide⟩,
    drawGraphInternal_cacheHit c3State scBData c3Cached
      (by decide) (by decide) (by decide)⟩

/-- **C10**: after every completed draw the physics flag equals whether the
chosen layout's options enable physics — false for the top-to-bottom
hierarchical layout, true for clustered-force and manual left-to-right — and
the flag's prior value has no influence, so a manual physics pause does not
survive a snapshot or strategy change. -/
theorem drawGraphInternal_syncsPhysicsFlag (st : AppState) (d : GraphStateData)
    (hc : st.containerPresent = true)
    (hd : lookupMap st.graphData st.selectedState = some d) :
    (drawGraphInternal st).isPhysicsEnabled
        = (getLayoutOptions st.selectedLayout).physics.isSome ∧
      (st.selectedLayout = "hierarchicalUD" →
        (drawGraphInternal st).isPhysicsEnabled = false) ∧
      (st.selectedLayout = "clusteredForce" ∨ st.selectedLayout = "hierarchicalLR" →
        (drawGraphInternal st).isPhysicsEnabled = true) ∧
      ∀ b : Bool,
        (drawGraphInternal { st with isPhysicsEnabled := b }).isPhysicsEnabled
          = (drawGraphInternal st).isPhysicsEnabled := by
  have hmain : (drawGraphInternal st).isPhysicsEnabled
      = (getLayoutOptions st.selectedLayout).physics.isSome := by
    rw [drawGraphInternal_flag st d hc hd, drawOptions_physics_isSome]
  refine ⟨hmain, ?_, ?_, ?_⟩
  · intro h
    rw [hmain, h]
    simp [getLayoutOptions]
  · intro h
    rw [hmain]
    rcases h with h | h <;> rw [h] <;> simp [getLayoutOptions]
  · intro b
    have hb : (drawGraphInternal { st with isPhysicsEnabled := b }).isPhysicsEnabled
        = (getLayoutOptions st.selectedLayout).physics.isSome := by
      rw [drawGraphInternal_flag { st with isPhysicsEnabled := b } d hc hd,
        drawOptions_physics_isSome]
    rw [hb, hmain]

/-- Concrete state for the C10 witness: the top-to-bottom hierarchical layout
with physics manually left on before the draw. -/
def c10State : AppState :=
  { graphData := [("past", scBData)], selectedLayout := "hierarchicalUD" }

/-- Witness for C10: drawing `hierarchicalUD` forces the flag off. -/
theorem drawGraphInternal_syncsPhysicsFlag_witness :
    (c10State.containerPresent = true ∧
        lookupMap c10State.graphData c10State.selectedState = some scBData) ∧
      ((drawGraphInternal c10State).isPhysicsEnabled
          = (getLayoutOptions c10State.selectedLayout).physics.isSome ∧
        (c10State.selectedLayout = "hierarchicalUD" →
          (drawGraphInternal c10State).isPhysicsEnabled = false) ∧
        (c10State.selectedLayout = "clusteredForce" ∨
            c10State.selectedLayout = "hierarchicalLR" →
          (drawGraphInternal c10State).isPhysicsEnabled = true) ∧
        ∀ b : Bool,
          (drawGraphInternal { c10State with isPhysicsEnabled := b }).isPhysicsEnabled
            = (drawGraphInternal c10State).isPhysicsEnabled) :=
  ⟨⟨by decide, by decide⟩,
    drawGraphInternal_syncsPhysicsFlag c10State scBData (by decide) (by decide)⟩

/-- **C9 (amended)**: on a missing snapshot dataset the draw logs the error
and aborts with the loading flag cleared — no new instance is built, the
cache and data are untouched; but the previous instance was already destroyed
by the draw's upfront teardown, so the display is cleared rather than left on
the previous render. -/
theorem drawGraphInternal_missingData (st : AppState)
    (hc : st.containerPresent = true)
    (hd : lookupMap st.graphData st.selectedState = none) :
    (drawGraphInternal st).isLoading = false ∧
      (drawGraphInternal st).errors
        = st.errors ++ ["No data for state: " ++ st.selectedState] ∧
      (drawGraphInternal st).network = none ∧
      (drawGraphInternal st).layoutCache = st.layoutCache ∧
      (drawGraphInternal st).graphData = st.graphData ∧
      (drawGraphInternal st).isPhysicsEnabled = st.isPhysicsEnabled := by
  unfold drawGraphInternal
  simp [hc, hd]

/-- A live instance for the concrete error-path states. -/
def exInst : NetworkInst :=
  { buildId := 0, nodes := scANodes, edges := scAEdges,
    options := { hierarchicalEnabled := false,
                 physics := some { solver := "forceAtlas2Based",
                                   stabilizationEnabled := false } },
    cacheKey := "past_clusteredForce" }

/-- Concrete state requesting a snapshot with no dataset while an instance is
live. -/
def c9State : AppState :=
  { graphData := [("past", scBData)], network := some exInst,
    selectedState := "missing" }

/-- **C9 counterexample**: with a previously rendered instance live and the
requested snapshot missing, the draw destroys that instance up front and
leaves the network cleared — it does not remain on the previously rendered
state. -/
theorem drawGraphInternal_missingData_clearsNetwork :
    lookupMap c9State.graphData c9State.selectedState = none ∧
      c9State.network = some exInst ∧
      (drawGraphInternal c9State).network ≠ c9State.network := by
  refine ⟨by decide, by decide, ?_⟩
  decide

/-- Witness for the amended C9 at the concrete missing-snapshot state. -/
theorem drawGraphInternal_missingData_witness :
    (c9State.containerPresent = true ∧
        lookupMap c9State.graphData c9State.selectedState = none) ∧
      ((drawGraphInternal c9State).isLoading = false ∧
        (drawGraphInternal c9State).errors
          = c9State.errors ++ ["No data for state: " ++ c9State.selectedState] ∧
        (drawGraphInternal c9State).network = none ∧
        (drawGraphInternal c9State).layoutCache = c9State.layoutCache ∧
        (drawGraphInternal c9State).graphData = c9State.graphData ∧
        (drawGraphInternal c9State).isPhysicsEnabled = c9State.isPhysicsEnabled) :=
  ⟨⟨by decide, by decide⟩,
    drawGraphInternal_missingData c9State (by decide) (by decide)⟩

/-- **C8**: a snapshot, strategy, or view-mode change that leads to a new
build routes through `_drawGraphInternal`, which clears the stored pending
auto-disable timer before the new instance is created: after the draw the old
timer is no longer pending, the fresh instance exists, and firing the old
timer against the post-draw state is a no-op. -/
theorem drawGraphInternal_cancelsPendingTimer (st : AppState) (d : GraphStateData)
    (t : Nat)
    (hc : st.containerPresent = true)
    (hd : lookupMap st.graphData st.selectedState = some d)
    (ht : st.stabilizationTimeout = some t)
    (hp : t ∈ st.pendingTimers) :
    t ∉ (drawGraphInternal st).pendingTimers ∧
      (∃ inst, (drawGraphInternal st).network = some inst ∧
        inst.buildId = st.nextBuildId) ∧
      timerFire (drawGraphInternal st) t = drawGraphInternal st := by
  have hpend : (drawGraphInternal st).pendingTimers
      = st.pendingTimers.filter (fun u => u ≠ t) := by
    rw [drawGraphInternal_pendingTimers st d hc hd]
    unfold canceledTimers
    rw [ht]
  have hnot : t ∉ (drawGraphInternal st).pendingTimers := by
    rw [hpend]
    intro hmem
    have := List.of_mem_filter hmem
    simp at this
  refine ⟨hnot, ⟨_, drawGraphInternal_network st d hc hd, rfl⟩, ?_⟩
  unfold timerFire
  rw [if_neg hnot]

/-- Concrete state for the C8 witness: a pending auto-disable timer armed by a
previous build. -/
def c8State : AppState :=
  { graphData := [("past", scBData)], network := some exInst,
    stabilizationTimeout := some 5, pendingTimers := [5], nextTimerId := 6,
    nextBuildId := 1 }

/-- Witness for C8 at the concrete state with pending timer 5. -/
theorem drawGraphInternal_cancelsPendingTimer_witness :
    (c8State.containerPresent = true ∧
        lookupMap c8State.graphData c8State.selectedState = some scBData ∧
        c8State.stabilizationTimeout = some 5 ∧ 5 ∈ c8State.pendingTimers) ∧
      (5 ∉ (drawGraphInternal c8State).pendingTimers ∧
        (∃ inst, (drawGraphInternal c8State).network = some inst ∧
          inst.buildId = c8State.nextBuildId) ∧
        timerFire (drawGraphInternal c8State) 5 = drawGraphInternal c8State) :=
  ⟨⟨by decide, by decide, by decide, by decide⟩,
    drawGraphInternal_cancelsPendingTimer c8State scBData 5
      (by decide) (by decide) (by decide) (by decide)⟩

/-- **C4**: a drag-end whose live positions differ from the cached layout only
at the dragged node patches exactly that node — reading the cache back for the
same (snapshot, strategy, node) gives the patched coordinate while every other
node's cached coordinate is unchanged — and a subsequent full-layout cache
write (the stabilization handler) replaces the entry wholesale, so the patched
node's post-write value is exactly the new payload's entry for it: the write
cannot silently revert the node unless the node is included in the payload. -/
theorem dragEnd_patchOne (st : AppState) (inst : NetworkInst)
    (cached : List (String × Pos)) (nodeId : String) (p : Pos)
    (hnet : st.network = some inst)
    (hcache : lookupMap st.layoutCache inst.cacheKey = some cached) :
    lookupMap (dragEnd st (setMap cached nodeId p)).layoutCache inst.cacheKey
        = some (setMap cached nodeId p) ∧
      lookupMap (setMap cached nodeId p) nodeId = some p ∧
      (∀ k, k ≠ nodeId → lookupMap (setMap cached nodeId p) k = lookupMap cached k) ∧
      ∀ m : List (String × Pos),
        lookupMap ((stabilizationDone (dragEnd st (setMap cached nodeId p)) m).layoutCache)
          inst.cacheKey = some m := by
  have hdrag : dragEnd st (setMap cached nodeId p)
      = { st with layoutCache := setMap st.layoutCache inst.cacheKey (setMap cached nodeId p) } := by
    unfold dragEnd
    rw [hnet]
  refine ⟨?_, lookupMap_setMap_self _ _ _, ?_, ?_⟩
  · rw [hdrag]
    exact lookupMap_setMap_self _ _ _
  · intro k hk
    exact lookupMap_setMap_ne _ _ _ _ hk
  · intro m
    have hnet1 : (dragEnd st (setMap cached nodeId p)).network = some inst := by
      rw [hdrag]
      exact hnet
    unfold stabilizationDone
    rw [hnet1]
    exact lookupMap_setMap_self _ _ _

/-- The cached two-node layout used by the concrete C4 state. -/
def c4Cached : List (String × Pos) := [("F1", ⟨0, 0⟩), ("W1", ⟨200, 0⟩)]

/-- The dragged node's new live position in the C4 witness. -/
def c4NewPos : Pos := ⟨250, 40⟩

/-- Concrete state for the C4 witness: a cached two-node layout for the live
build's key. -/
def c4State : AppState :=
  { graphData := [("past", scBData)], network := some exInst,
    layoutCache := [("past_clusteredForce", c4Cached)] }

/-- Witness for C4: dragging `W1` to (250, 40) patches just `W1`. -/
theorem dragEnd_patchOne_witness :
    (c4State.network = some exInst ∧
        lookupMap c4State.layoutCache exInst.cacheKey = some c4Cached) ∧
      (lookupMap (dragEnd c4State (setMap c4Cached "W1" c4NewPos)).layoutCache
          exInst.cacheKey = some (setMap c4Cached "W1" c4NewPos) ∧
        lookupMap (setMap c4Cached "W1" c4NewPos) "W1" = some c4NewPos ∧
        (∀ k, k ≠ "W1" →
          lookupMap (setMap c4Cached "W1" c4NewPos) k = lookupMap c4Cached k) ∧
        ∀ m : List (String × Pos),
          lookupMap ((stabilizationDone
              (dragEnd c4State (setMap c4Cached "W1" c4NewPos))
              m).layoutCache) exInst.cacheKey = some m) :=
  ⟨⟨by decide, by decide⟩,
    dragEnd_patchOne c4State exInst c4Cached "W1" c4NewPos
      (by decide) (by decide)⟩

/-! ## Search and highlight -/

/-- JS `String.prototype.includes`: substring test. -/
def strIncludes (s q : String) : Bool :=
  (List.range (s.toList.length + 1)).any
    (fun i => q.toList.isPrefixOf (s.toList.drop i))

/-- JS `toLowerCase` (ASCII range), character by character. -/
def strToLower (s : String) : String := String.mk (s.toList.map Char.toLower)

/-- JS `trim`: strip leading and trailing whitespace. -/
def strTrim (s : String) : String :=
  String.mk (((s.toList.dropWhile Char.isWhitespace).reverse.dropWhile
    Char.isWhitespace).reverse)

/-- The two node stylings `applyHighlight` pushes: the node's original
styling (full opacity) for the expanded selection, muted gray fill with
opacity 0.2 for everything else. -/
inductive HighlightStyle
  | original
  | dimmed
  deriving DecidableEq, Repr

/-- `network.getConnectedNodes(id)`: the ids one edge away from `id` in the
instance's edge set, treated undirected. -/
def getConnectedNodes (net : NetworkInst) (nodeId : String) : List String :=
  net.edges.flatMap (fun e =>
    (if e.«from» = nodeId then [e.«to»] else []) ++
      (if e.«to» = nodeId then [e.«from»] else []))

/-- Outcome of `applyHighlight`. -/
inductive HighlightOutcome
  | skip
  | reset
  | updates (nodeStyles : List (String × HighlightStyle))
  deriving DecidableEq, Repr

/-- `applyHighlight(selectedIds)`: bail out without network or snapshot data;
an empty selection resets styles; otherwise expand the selection by one hop
via `getConnectedNodes` and style every rendered node that exists in the
snapshot's original node list — original styling inside the expanded set,
dimmed outside (nodes absent from the original list are skipped). Edge
styling is omitted (pure styling constants). -/
def applyHighlight (st : AppState) (selectedIds : List String) : HighlightOutcome :=
  match st.network, lookupMap st.graphData st.selectedState with
  | some net, some d =>
    if selectedIds.length = 0 then .reset
    else
      let nodesToHighlight := selectedIds
        ++ selectedIds.flatMap (fun nodeId => getConnectedNodes net nodeId)
      .updates (net.nodes.filterMap (fun node =>
        match d.nodes.find? (fun n => n.id == node.id) with
        | none => none
        | some _ => some (node.id,
            if node.id ∈ nodesToHighlight then HighlightStyle.original
            else HighlightStyle.dimmed)))
  | _, _ => .skip

/-- Outcome of `searchNodes`. -/
inductive SearchOutcome
  | skip
  | clear
  | found (selected : List String) (highlight : HighlightOutcome) (focus : String)
  | noMatch
  deriving DecidableEq, Repr

/-- `searchNodes(query)`: no network → bail; lowercased-and-trimmed empty
query → reset styles and clear the selection; otherwise match the *active
snapshot's* nodes case-insensitively on label and id, select and highlight the
matches and focus the first one (first in original data order); no match →
clear the selection and reset. A missing active dataset would throw in the JS
(`.nodes` on undefined); the model returns `.skip` there (unreachable in the
app flow). -/
def searchNodes (st : AppState) (query : String) : SearchOutcome :=
  match st.network with
  | none => .skip
  | some _ =>
    let lowerCaseQuery := strTrim (strToLower query)
    if lowerCaseQuery = "" then .clear
    else
      match lookupMap st.graphData st.selectedState with
      | none => .skip
      | some d =>
        let matchedNodes := d.nodes.filter (fun node =>
          strIncludes (strToLower node.label) lowerCaseQuery
            || strIncludes (strToLower node.id) lowerCaseQuery)
        match matchedNodes.map Node.id with
        | [] => .noMatch
        | firstId :: restIds =>
          .found (firstId :: restIds) (applyHighlight st (firstId :: restIds)) firstId

/-- **C7**: for every query that is non-empty after lowercasing and trimming,
matching is a case-insensitive substring test against label and id over the
active snapshot's node set only — other snapshots' datasets cannot change the
outcome; when the match set is non-empty, the result selects the matches,
focuses the first match in original data order, and styles a rendered node as
original (highlighted) exactly when it lies in the one-hop-expanded match
set, dimming every other styled node; every rendered node present in the
snapshot's node list receives a style. -/
theorem searchNodes_spec (st : AppState) (net : NetworkInst) (d : GraphStateData)
    (query : String)
    (hnet : st.network = some net)
    (hd : lookupMap st.graphData st.selectedState = some d)
    (hq : strTrim (strToLower query) ≠ "") :
    (∀ n : Node,
        n ∈ d.nodes.filter (fun node =>
            strIncludes (strToLower node.label) (strTrim (strToLower query))
              || strIncludes (strToLower node.id) (strTrim (strToLower query)))
          ↔ n ∈ d.nodes ∧
            (strIncludes (strToLower n.label) (strTrim (strToLower query)) = true ∨
              strIncludes (strToLower n.id) (strTrim (strToLower query)) = true)) ∧
    (∀ gd2 : List (String × GraphStateData),
        lookupMap gd2 st.selectedState = some d →
          searchNodes { st with graphData := gd2 } query = searchNodes st query) ∧
    ∀ (m : String) (ms : List String),
      (d.nodes.filter (fun node =>
          strIncludes (strToLower node.label) (strTrim (strToLower query))
            || strIncludes (strToLower node.id) (strTrim (strToLower query)))).map Node.id
        = m :: ms →
      ∃ upds, searchNodes st query = .found (m :: ms) (.updates upds) m ∧
        (∀ (nodeId : String) (sty : HighlightStyle), (nodeId, sty) ∈ upds →
          (sty = HighlightStyle.original ↔
            nodeId ∈ (m :: ms) ++ (m :: ms).flatMap (fun x => getConnectedNodes net x))) ∧
        ∀ node : Node, node ∈ net.nodes → (∃ orig ∈ d.nodes, orig.id = node.id) →
          ∃ sty, (node.id, sty) ∈ upds := by
  refine ⟨?_, ?_, ?_⟩
  · intro n
    rw [List.mem_filter]
    simp [Bool.or_eq_true]
  · intro gd2 h2
    unfold searchNodes
    simp only [hnet]
    rw [if_neg hq, if_neg hq]
    simp only [hd, h2]
    unfold applyHighlight
    simp only [hnet, hd, h2]
  · intro m ms hmatch
    have hsearch : searchNodes st query
        = .found (m :: ms) (applyHighlight st (m :: ms)) m := by
      unfold searchNodes
      simp only [hnet]
      rw [if_neg hq]
      simp only [hd]
      rw [hmatch]
    have hhl : applyHighlight st (m :: ms)
        = .updates (net.nodes.filterMap (fun node =>
            match d.nodes.find? (fun n => n.id == node.id) with
            | none => none
            | some _ => some (node.id,
                if node.id ∈ (m :: ms)
                    ++ (m :: ms).flatMap (fun x => getConnectedNodes net x)
                then HighlightStyle.original
                else HighlightStyle.dimmed))) := by
      unfold applyHighlight
      simp only [hnet, hd]
      rw [if_neg (by simp)]
    refine ⟨_, by rw [hsearch, hhl], ?_, ?_⟩
    · intro nodeId sty hmem
      rw [List.mem_filterMap] at hmem
      obtain ⟨node, hnode, hf⟩ := hmem
      cases hfind : d.nodes.find? (fun n => n.id == node.id) with
      | none => rw [hfind] at hf; exact Option.noConfusion hf
      | some orig =>
        rw [hfind] at hf
        have hpair := Option.some.inj hf
        injection hpair with hid hsty
        subst hid
        subst hsty
        by_cases hin : node.id ∈ (m :: ms)
            ++ (m :: ms).flatMap (fun x => getConnectedNodes net x)
        · rw [if_pos hin]
          exact ⟨fun _ => hin, fun _ => rfl⟩
        · rw [if_neg hin]
          exact ⟨fun h => absurd h (by simp), fun h => absurd h hin⟩
    · intro node hmemnode hexists
      obtain ⟨orig, horig, hoid⟩ := hexists
      have hfind : (d.nodes.find? (fun n => n.id == node.id)).isSome := by
        rw [List.find?_isSome]
        exact ⟨orig, horig, by simp [hoid]⟩
      cases hfind2 : d.nodes.find? (fun n => n.id == node.id) with
      | none => rw [hfind2] at hfind; simp at hfind
      | some o =>
        refine ⟨if node.id ∈ (m :: ms) ++ (m :: ms).flatMap (fun x => getConnectedNodes net x)
            then HighlightStyle.original else HighlightStyle.dimmed,
          List.mem_filterMap.mpr ⟨node, hmemnode, ?_⟩⟩
        rw [hfind2]

/-- Scenario A's snapshot dataset. -/
def scAData : GraphStateData := { nodes := scANodes, edges := scAEdges }

/-- Concrete state for the C7 witness: Scenario A rendered live. -/
def c7State : AppState :=
  { graphData := [("past", scAData)], network := some exInst }

/-- Witness for C7 at Scenario C: query "W1" on Scenario A's snapshot. -/
theorem searchNodes_spec_witness :
    (c7State.network = some exInst ∧
        lookupMap c7State.graphData c7State.selectedState = some scAData ∧
        strTrim (strToLower "W1") ≠ "") ∧
      ((∀ n : Node,
          n ∈ scAData.nodes.filter (fun node =>
              strIncludes (strToLower node.label) (strTrim (strToLower "W1"))
                || strIncludes (strToLower node.id) (strTrim (strToLower "W1")))
            ↔ n ∈ scAData.nodes ∧
              (strIncludes (strToLower n.label) (strTrim (strToLower "W1")) = true ∨
                strIncludes (strToLower n.id) (strTrim (strToLower "W1")) = true)) ∧
        (∀ gd2 : List (String × GraphStateData),
            lookupMap gd2 c7State.selectedState = some scAData →
              searchNodes { c7State with graphData := gd2 } "W1"
                = searchNodes c7State "W1") ∧
        ∀ (m : String) (ms : List String),
          (scAData.nodes.filter (fun node =>
              strIncludes (strToLower node.label) (strTrim (strToLower "W1"))
                || strIncludes (strToLower node.id) (strTrim (strToLower "W1")))).map Node.id
            = m :: ms →
          ∃ upds, searchNodes c7State "W1" = .found (m :: ms) (.updates upds) m ∧
            (∀ (nodeId : String) (sty : HighlightStyle), (nodeId, sty) ∈ upds →
              (sty = HighlightStyle.original ↔
                nodeId ∈ (m :: ms)
                  ++ (m :: ms).flatMap (fun x => getConnectedNodes exInst x))) ∧
            ∀ node : Node, node ∈ exInst.nodes →
              (∃ orig ∈ scAData.nodes, orig.id = node.id) →
              ∃ sty, (node.id, sty) ∈ upds) :=
  ⟨⟨by decide, by decide, by decide⟩,
    searchNodes_spec c7State exInst scAData "W1" (by decide) (by decide) (by decide)⟩

end DWViz
